import Mathlib

/-!
Verification of the metadata content-search aggregator of the
SalesforceMetadataSearch repository (src/app/index.tsx).

The embedding is a shallow one: the pure data-shaping code
(SOSL escaping, line scanning, merging, ranking) is translated to
executable Lean functions; the network transport is an oracle
(`FetchOutcome` for one remote call, `BranchOutcome` for the settled
result of one dispatcher branch).  JavaScript strings are modelled as
Lean `String` (a list of characters); the character-wise operations the
source uses (`toLowerCase`, `split("\n")`, `trim`, `substring`,
`indexOf`) are re-implemented below on `List Char` so that all
definitions compute by kernel reduction.

A central point of the model is the shared, stateful search regex of
the source: `searchCodeContent` builds `new RegExp(escaped, "gi")` once
and calls `.test` on it everywhere.  A JavaScript regex with the `g`
flag keeps a `lastIndex` cursor across `.test` calls: a successful test
sets `lastIndex` to the end of the match and the next test starts there,
while a failed test resets it to 0.  The model threads this cursor
(`st : Nat`) through every test, exactly as the engine does.
-/

/-- Character-wise lower-casing, the model of `String.prototype.toLowerCase`. -/
def lowerChars (s : String) : List Char :=
  s.data.map Char.toLower

/-- JavaScript word character (`\w`): ASCII letter, digit or underscore. -/
def isWordChar (c : Char) : Bool :=
  c.isAlphanum || c = '_'

/-- Splitting a character list at newline characters; the model of
`String.prototype.split("\n")` (a trailing newline yields a trailing
empty segment, as in JavaScript). -/
def splitNlChars : List Char → List (List Char)
  | [] => [[]]
  | c :: rest =>
    match splitNlChars rest with
    | [] => [[]]
    | seg :: segs => if c = '\n' then [] :: seg :: segs else (c :: seg) :: segs

/-- The model of `String.prototype.split("\n")`. -/
def splitLines (s : String) : List String :=
  (splitNlChars s.data).map String.mk

/-- The model of `String.prototype.trim` (strip leading and trailing
whitespace). -/
def trimStr (s : String) : String :=
  String.mk (((s.data.dropWhile Char.isWhitespace).reverse.dropWhile
    Char.isWhitespace).reverse)

/-- The function `substrChars s a b` models `s.substring(a, b)` for `a ≤ b`:
the characters with indices in `[a, b)`. -/
def substrChars (s : String) (a b : Nat) : String :=
  String.mk ((s.data.drop a).take (b - a))

/-- Fuel-driven scan for the first index `≥ k` at which `need` occurs in
`hay`; there are at most `hay.length + 1 - k` candidate indices, so that
much fuel explores them all. -/
def findFromGo (hay need : List Char) : Nat → Nat → Option Nat
  | 0, _ => none
  | fuel + 1, k =>
    if k + need.length > hay.length then none
    else if need.isPrefixOf (hay.drop k) then some k
    else findFromGo hay need fuel (k + 1)

/-- First index `≥ k` at which `need` occurs in `hay`, or `none`.
This is the search primitive behind the model of the `gi` regex. -/
def findFrom (hay need : List Char) (k : Nat) : Option Nat :=
  findFromGo hay need (hay.length + 1 - k) k

/-- Case-insensitive containment of `term` in `s`; the pure reading of
`searchRegex.test(s)` on a fresh regex. -/
def containsCI (term s : String) : Bool :=
  (findFrom (lowerChars s) (lowerChars term) 0).isSome

/-- Plain case-sensitive containment, the model of
`String.prototype.includes`. -/
def strIncludes (s sub : String) : Bool :=
  (findFrom s.data sub.data 0).isSome

/-- The function `optIncludes m sub` models `m?.includes(sub)` for a nullable string. -/
def optIncludes (m : Option String) (sub : String) : Bool :=
  match m with
  | none => false
  | some s => strIncludes s sub

/-- One `.test` call on the shared `gi` regex for `term`: given the
current `lastIndex` cursor `st`, search case-insensitively from `st`;
a hit moves the cursor past the match, a miss resets it to 0. -/
def regexTestG (term : String) (st : Nat) (s : String) : Bool × Nat :=
  match findFrom (lowerChars s) (lowerChars term) st with
  | some k => (true, k + term.length)
  | none => (false, 0)

/-- The model of `Array.prototype.join(" ")`. -/
def joinSpace : List String → String
  | [] => ""
  | [s] => s
  | s :: rest => s ++ " " ++ joinSpace rest

/-- The model of `Array.prototype.join("\n")`. -/
def joinNl : List String → String
  | [] => ""
  | [s] => s
  | s :: rest => s ++ "\n" ++ joinNl rest

/-! ## Data model (src/app/index.tsx, interface CodeSearchResult) -/

/-- One line-level hit, the element type of `CodeSearchResult.matches`. -/
structure SearchMatch where
  line : Nat
  content : String
  snippet : String
  context : String
deriving DecidableEq, Repr

/-- The externally visible search result unit (interface
`CodeSearchResult`, src/app/index.tsx lines 549-562). -/
structure CodeSearchResult where
  id : String
  type : String
  name : String
  label : String
  fileName : String
  «matches» : List SearchMatch
  totalMatches : Nat
deriving DecidableEq, Repr

/-! ## SOSL escaping (src/app/index.tsx lines 63-67) -/

/-- The character class of `escapeSOSL`'s regex:
backslash, question mark, ampersand, pipe, bang, braces, brackets,
parentheses, caret, tilde, star, colon, double quote, single quote,
plus, minus. -/
def isSOSLReserved (c : Char) : Bool :=
  c ∈ ['\\', '?', '&', '|', '!', '{', '}', '[', ']', '(', ')', '^', '~',
       '*', ':', '"', '\'', '+', '-']

/-- The function `escapeSOSL` (src/app/index.tsx line 64): prefix every reserved
character with a single backslash, leave all other characters alone. -/
def escapeSOSL (s : String) : String :=
  String.mk (s.data.flatMap fun c => if isSOSLReserved c then ['\\', c] else [c])

/-- Removing the one inserted backslash before each reserved character:
the inverse reading used by the round-trip property of the spec. -/
def removeEscapes : List Char → List Char
  | [] => []
  | [c] => [c]
  | c1 :: c2 :: rest =>
    if c1 = '\\' && isSOSLReserved c2 then c2 :: removeEscapes rest
    else c1 :: removeEscapes (c2 :: rest)

/-- Unescaping a SOSL-escaped string. -/
def unescapeSOSL (s : String) : String :=
  String.mk (removeEscapes s.data)

/-! ## Error taxonomy (src/app/index.tsx lines 77-105) -/

/-- What a failed remote call threw, after `handleApiError` is done:
either the distinguished `TokenExpiredError` or a generic `Error`. -/
inductive ApiFailure where
  | tokenExpired
  | generic
deriving DecidableEq, Repr

/-- The parse of a non-2xx response body, as `handleApiError` sees it:
either not JSON at all, or JSON whose first element has an optional
`errorCode` and an optional `message`. -/
inductive ErrorBody where
  | notJson
  | jsonErr (errorCode : Option String) (message : Option String)
deriving DecidableEq, Repr

/-- The function `handleApiError` (src/app/index.tsx lines 84-105).  The source
throws `TokenExpiredError` when the body carries
`errorCode === "INVALID_SESSION_ID"` or a message containing
"Session expired"; a generic `Error` thrown inside the `try` for other
JSON messages is caught by the function's own `catch`, which promotes
it to `TokenExpiredError` exactly when the HTTP status is 401; a body
that parses to JSON without a message falls through to the final
generic throw even on a 401. -/
def handleApiError (status : Nat) (body : ErrorBody) : ApiFailure :=
  match body with
  | .notJson => if status = 401 then .tokenExpired else .generic
  | .jsonErr errorCode message =>
    if errorCode = some "INVALID_SESSION_ID" || optIncludes message "Session expired"
    then .tokenExpired
    else
      match message with
      | some _ => if status = 401 then .tokenExpired else .generic
      | none => .generic

/-- The outcome of one `fetch` as the aggregator's helpers see it:
a 2xx JSON response carrying `records`, a non-2xx response with a
status and parsed error body, an `AbortError` from the per-branch
timeout, or another network/parse error. -/
inductive FetchOutcome (α : Type) where
  | success (records : List α)
  | httpError (status : Nat) (body : ErrorBody)
  | abortTimeout
  | networkError
deriving DecidableEq, Repr

/-- The `toolingQuery` helper inside `searchCodeContent`
(src/app/index.tsx lines 591-631): a non-OK response runs
`handleApiError` only when the status is 401, and the helper's `catch`
re-throws only `TokenExpiredError` (modelled as `.error ()`); every
other failure — timeout, network error, non-401 HTTP error, 401 whose
`handleApiError` outcome is generic — yields `{ records: [] }`. -/
def toolingQueryE {α : Type} (f : FetchOutcome α) : Except Unit (List α) :=
  match f with
  | .success records => .ok records
  | .httpError status body =>
    if status = 401 then
      match handleApiError status body with
      | .tokenExpired => .error ()
      | .generic => .ok []
    else .ok []
  | .abortTimeout => .ok []
  | .networkError => .ok []

/-! ## Content Scanner (src/app/index.tsx lines 636-685) -/

/-- The highlight snippet of one matching line: `matchIndex` is the
first case-insensitive occurrence found from the start of the line
(`line.toLowerCase().indexOf(term.toLowerCase())`, -1 when absent); a
window of 50 characters before and after the match is cut out, trimmed,
and marked with an ellipsis on each clamped side. -/
def mkSnippet (term line : String) : String :=
  let mi : Int :=
    match findFrom (lowerChars line) (lowerChars term) 0 with
    | some k => (k : Int)
    | none => -1
  let start : Nat := (mi - 50).toNat
  let endIdx : Nat := min line.length (mi + (term.length : Int) + 50).toNat
  (if start > 0 then "..." else "") ++ trimStr (substrChars line start endIdx)
    ++ (if endIdx < line.length then "..." else "")

/-- The 1-3 line context block around line index `i` (previous and next
line joined in when non-blank, each prefixed with its 1-based number). -/
def mkContextBlock (lines : List String) (i : Nat) : String :=
  let line := lines.getD i ""
  let pre :=
    if i > 0 ∧ trimStr (lines.getD (i - 1) "") ≠ ""
    then [toString i ++ ": " ++ trimStr (lines.getD (i - 1) "")] else []
  let post :=
    if i < lines.length - 1 ∧ trimStr (lines.getD (i + 1) "") ≠ ""
    then [toString (i + 2) ++ ": " ++ trimStr (lines.getD (i + 1) "")] else []
  joinNl (pre ++ [toString (i + 1) ++ ": " ++ trimStr line] ++ post)

/-- The match record pushed for line index `i` of `searchInContent`. -/
def mkLineMatch (term ty : String) (lines : List String) (i : Nat) : SearchMatch :=
  { line := i + 1
    content := mkContextBlock lines i
    snippet := mkSnippet term (lines.getD i "")
    context := "Line " ++ toString (i + 1) ++ " (" ++ ty ++ ")" }

/-- The scanning loop of `searchInContent`: walk the lines from index
`i` while fewer than 15 matches were collected, testing each line on
the shared stateful regex (cursor `st`).  Fuel-driven so that all
lemmas go through by structural induction; `fuel = lines.length`
suffices at `i = 0`. -/
def scanFromGo (term ty : String) (lines : List String) :
    Nat → Nat → Nat → List SearchMatch → (List SearchMatch × Nat)
  | 0, _, st, acc => (acc, st)
  | fuel + 1, i, st, acc =>
    if i < lines.length then
      if acc.length ≥ 15 then (acc, st)
      else
        let (hit, st') := regexTestG term st (lines.getD i "")
        if hit then
          scanFromGo term ty lines fuel (i + 1) st' (acc ++ [mkLineMatch term ty lines i])
        else scanFromGo term ty lines fuel (i + 1) st' acc
    else (acc, st)

/-- The function `searchInContent` (src/app/index.tsx lines 636-685): empty content
is rejected outright; otherwise the body is split into lines and
scanned; a result is produced only when at least one match was found,
with `totalMatches` set to the length of the collected match list.
The extra `st` argument is the shared regex cursor; it is threaded in
and returned. -/
def searchInContent (term : String) (st : Nat)
    (content fileName ty name label id : String) :
    Option CodeSearchResult × Nat :=
  if content.length = 0 then (none, st)
  else if (scanFromGo term ty (splitLines content)
      (splitLines content).length 0 st []).1.length > 0 then
    (some ⟨id, ty, name, label, fileName,
        (scanFromGo term ty (splitLines content)
          (splitLines content).length 0 st []).1,
        (scanFromGo term ty (splitLines content)
          (splitLines content).length 0 st []).1.length⟩,
      (scanFromGo term ty (splitLines content)
        (splitLines content).length 0 st []).2)
  else (none, (scanFromGo term ty (splitLines content)
      (splitLines content).length 0 st []).2)

/-! ## Apex class branch (src/app/index.tsx lines 691-725) -/

/-- One record of the Apex class tooling query. -/
structure ApexClassRec where
  Id : String
  Name : String
  Body : String
deriving DecidableEq, Repr

/-- The per-record loop of the Apex class branch: a record whose body
is non-empty, non-blank and passes the shared regex test is handed to
the scanner; the regex cursor is threaded through the body pre-test and
the scan exactly as the shared `searchRegex` object is in the source. -/
def apexScan (term : String) : List ApexClassRec → Nat → List CodeSearchResult × Nat
  | [], st => ([], st)
  | cls :: rest, st =>
    if cls.Body ≠ "" ∧ trimStr cls.Body ≠ "" then
      let (hit, st1) := regexTestG term st cls.Body
      if hit then
        let (e, st2) := searchInContent term st1 cls.Body (cls.Name ++ ".cls")
          "apex-class" cls.Name cls.Name ("apex-class-" ++ cls.Id)
        let (es, st3) := apexScan term rest st2
        (e.toList ++ es, st3)
      else apexScan term rest st1
    else apexScan term rest st

/-- The settled outcome of one dispatcher branch, as
`Promise.allSettled` sees it: fulfilled with a list of results pushed
into the shared `results` array, rejected with a non-authentication
error (absorbed), or rejected with `TokenExpiredError`. -/
inductive BranchOutcome where
  | ok (rs : List CodeSearchResult)
  | failed
  | authFailed
deriving DecidableEq, Repr

/-- The Apex class branch (src/app/index.tsx lines 691-725): its
tooling query escalating `TokenExpiredError` makes the whole branch
reject with it; otherwise the returned records are scanned. -/
def apexClassBranch (term : String) (st : Nat) (f : FetchOutcome ApexClassRec) :
    BranchOutcome :=
  match toolingQueryE f with
  | .error _ => .authFailed
  | .ok records => .ok (apexScan term records st).1

/-! ## Lightning Web Component branch (src/app/index.tsx lines 934-1001) -/

/-- One record of the LWC bundle tooling query; absent (`null`) fields
are modelled as the empty string, which is falsy exactly like `null` in
every test the source performs on them. -/
structure LwcRec where
  Id : String
  DeveloperName : String
  MasterLabel : String
  Description : String
deriving DecidableEq, Repr

/-- Description snippets are truncated to 100 characters with an
ellipsis (src/app/index.tsx line 978). -/
def truncate100 (s : String) : String :=
  if s.length > 100 then substrChars s 0 100 ++ "..." else s

/-- The per-bundle body of the LWC branch: the three fields are joined
with spaces and tested as one string; when that combined test passes,
each non-empty field is tested individually (on the same stateful
regex) to build the match list, and the result is pushed even when the
individual tests all miss. -/
def lwcScanOne (term : String) (st : Nat) (lwc : LwcRec) :
    Option CodeSearchResult × Nat :=
  let sc := joinSpace ([lwc.DeveloperName, lwc.MasterLabel, lwc.Description].filter
    (fun s => s ≠ ""))
  let (hit, st1) := regexTestG term st sc
  if hit then
    let (m1, st2) :=
      if lwc.DeveloperName ≠ "" then
        let (h, s) := regexTestG term st1 lwc.DeveloperName
        (if h then [⟨1, "Component Name: " ++ lwc.DeveloperName,
          lwc.DeveloperName, "LWC Name"⟩] else [], s)
      else ([], st1)
    let (m2, st3) :=
      if lwc.MasterLabel ≠ "" then
        let (h, s) := regexTestG term st2 lwc.MasterLabel
        (if h then [⟨2, "Label: " ++ lwc.MasterLabel,
          lwc.MasterLabel, "LWC Label"⟩] else [], s)
      else ([], st2)
    let (m3, st4) :=
      if lwc.Description ≠ "" then
        let (h, s) := regexTestG term st3 lwc.Description
        (if h then [⟨3, "Description: " ++ lwc.Description,
          truncate100 lwc.Description, "LWC Description"⟩] else [], s)
      else ([], st3)
    let ms := m1 ++ m2 ++ m3
    (some { id := "lwc-bundle-" ++ lwc.Id, type := "lwc-bundle",
            name := lwc.DeveloperName,
            label := if lwc.MasterLabel ≠ "" then lwc.MasterLabel else lwc.DeveloperName,
            fileName := lwc.DeveloperName ++ ".js",
            «matches» := ms, totalMatches := ms.length }, st4)
  else (none, st1)

/-- The record loop of the LWC branch. -/
def lwcScan (term : String) : List LwcRec → Nat → List CodeSearchResult × Nat
  | [], st => ([], st)
  | lwc :: rest, st =>
    let (e, st1) := lwcScanOne term st lwc
    let (es, st2) := lwcScan term rest st1
    (e.toList ++ es, st2)

/-- The LWC branch (src/app/index.tsx lines 934-1001). -/
def lwcBranch (term : String) (st : Nat) (f : FetchOutcome LwcRec) : BranchOutcome :=
  match toolingQueryE f with
  | .error _ => .authFailed
  | .ok records => .ok (lwcScan term records st).1

/-! ## Flow branch (src/app/index.tsx lines 764-931) -/

/-- One record of the flow tooling query; a `null` MasterLabel is the
empty string (falsy both ways). -/
structure FlowRec where
  Id : String
  MasterLabel : String
deriving DecidableEq, Repr

/-- The outcome of the raw XML document fetch for one flow. -/
inductive XmlFetch where
  | ok (text : String)
  | failed
deriving DecidableEq, Repr

/-- The model of `line.match(/<(\w+)[^>]*>/)`: the first position with
a `<` followed by a non-empty run of word characters and, later on the
line, a `>` closing the tag; the captured group is the word run. -/
def findTagGo : List Char → Option String
  | [] => none
  | c :: rest =>
    if c = '<' then
      let run := rest.takeWhile isWordChar
      if run ≠ [] ∧ (rest.drop run.length).contains '>' then some (String.mk run)
      else findTagGo rest
    else findTagGo rest

/-- The `flowElementTypes` tag-to-label table (src/app/index.tsx
lines 843-872). -/
def flowElementLabel (tag : String) : Option String :=
  if tag = "label" then some "Element Label"
  else if tag = "name" then some "Element Name"
  else if tag = "description" then some "Element Description"
  else if tag = "helpText" then some "Help Text"
  else if tag = "value" then some "Value"
  else if tag = "stringValue" then some "String Value"
  else if tag = "formula" then some "Formula"
  else if tag = "elementReference" then some "Element Reference"
  else if tag = "choiceText" then some "Choice Text"
  else if tag = "defaultValue" then some "Default Value"
  else if tag = "errorMessage" then some "Error Message"
  else if tag = "validationRule" then some "Validation Rule"
  else if tag = "screenField" then some "Screen Field"
  else if tag = "inputParameter" then some "Input Parameter"
  else if tag = "outputParameter" then some "Output Parameter"
  else if tag = "variable" then some "Variable"
  else if tag = "textTemplate" then some "Text Template"
  else if tag = "recordLookup" then some "Record Lookup"
  else if tag = "recordCreate" then some "Record Create"
  else if tag = "recordUpdate" then some "Record Update"
  else if tag = "assignment" then some "Assignment"
  else if tag = "decision" then some "Decision"
  else if tag = "screen" then some "Screen"
  else if tag = "subflow" then some "Subflow"
  else if tag = "loop" then some "Loop"
  else if tag = "wait" then some "Wait"
  else if tag = "actionCall" then some "Action Call"
  else if tag = "collectionProcessor" then some "Collection Processor"
  else none

/-- The match record pushed for XML line index `i` of the flow deep
search: a 60-character highlight window and a context label derived
from the first XML tag on the line. -/
def mkFlowXmlMatch (term : String) (xlines : List String) (i : Nat) : SearchMatch :=
  let line := xlines.getD i ""
  let mi : Int :=
    match findFrom (lowerChars line) (lowerChars term) 0 with
    | some k => (k : Int)
    | none => -1
  let start : Nat := (mi - 60).toNat
  let endIdx : Nat := min line.length (mi + (term.length : Int) + 60).toNat
  let snippet := (if start > 0 then "..." else "")
    ++ trimStr (substrChars line start endIdx)
    ++ (if endIdx < line.length then "..." else "")
  let baseCtx :=
    match findTagGo line.data with
    | some tag => (flowElementLabel tag).getD ("Flow XML (" ++ tag ++ ")")
    | none => "Flow XML"
  { line := i + 1
    content := mkContextBlock xlines i
    snippet := snippet
    context := baseCtx ++ " Line " ++ toString (i + 1) }

/-- The XML scanning loop of the flow branch: walk the XML lines while
fewer than 10 XML matches were collected, appending to the running
`flowMatches` list `acc` and bumping the separate `totalMatches`
counter `total` on every push, exactly as the source does. -/
def flowXmlScanGo (term : String) (xlines : List String) :
    Nat → Nat → Nat → Nat → List SearchMatch → Nat →
    (List SearchMatch × Nat × Nat)
  | 0, i, st, cnt, acc, total => (acc, total, st)
  | fuel + 1, i, st, cnt, acc, total =>
    if i < xlines.length then
      if cnt ≥ 10 then (acc, total, st)
      else
        let (hit, st') := regexTestG term st (xlines.getD i "")
        if hit then
          flowXmlScanGo term xlines fuel (i + 1) st' (cnt + 1)
            (acc ++ [mkFlowXmlMatch term xlines i]) (total + 1)
        else flowXmlScanGo term xlines fuel (i + 1) st' cnt acc total
    else (acc, total, st)

/-- The name-match part of the per-flow body: a non-empty MasterLabel
is tested on the shared regex; a hit contributes the name match and
starts the `totalMatches` counter at 1.  Returns
`(flowMatches, totalMatches, cursor)`. -/
def flowNamePart (term : String) (st : Nat) (flow : FlowRec) :
    List SearchMatch × Nat × Nat :=
  if flow.MasterLabel ≠ "" then
    if (regexTestG term st flow.MasterLabel).1 then
      ([⟨1, "Flow Name: " ++ flow.MasterLabel, flow.MasterLabel, "Flow Name"⟩], 1,
        (regexTestG term st flow.MasterLabel).2)
    else ([], 0, (regexTestG term st flow.MasterLabel).2)
  else ([], 0, st)

/-- The XML deep-search part of the per-flow body: a successfully
fetched, non-blank XML body passing the combined regex test is scanned
line by line on top of the name matches. -/
def flowXmlPart (term : String) (st1 : Nat) (nameMs : List SearchMatch)
    (total1 : Nat) (xml : XmlFetch) : List SearchMatch × Nat × Nat :=
  match xml with
  | .ok text =>
    if text ≠ "" ∧ (trimStr text).length > 0 then
      if (regexTestG term st1 text).1 then
        flowXmlScanGo term (splitLines text) (splitLines text).length 0
          (regexTestG term st1 text).2 0 nameMs total1
      else (nameMs, total1, (regexTestG term st1 text).2)
    else (nameMs, total1, st1)
  | .failed => (nameMs, total1, st1)

/-- The per-flow body of the flow branch (src/app/index.tsx lines
787-922): the name part then the XML part; the flow is pushed exactly
when any match was found, with the separately counted `totalMatches`
field. -/
def flowScanOne (term : String) (st : Nat) (flow : FlowRec) (xml : XmlFetch) :
    Option CodeSearchResult × Nat :=
  if (flowXmlPart term (flowNamePart term st flow).2.2 (flowNamePart term st flow).1
      (flowNamePart term st flow).2.1 xml).1.length > 0 then
    (some ⟨"flow-" ++ flow.Id, "flow",
        (if flow.MasterLabel ≠ "" then flow.MasterLabel else "Flow"),
        (if flow.MasterLabel ≠ "" then flow.MasterLabel else "Flow"),
        (if flow.MasterLabel ≠ "" then flow.MasterLabel else "Flow") ++ ".flow",
        (flowXmlPart term (flowNamePart term st flow).2.2 (flowNamePart term st flow).1
          (flowNamePart term st flow).2.1 xml).1,
        (flowXmlPart term (flowNamePart term st flow).2.2 (flowNamePart term st flow).1
          (flowNamePart term st flow).2.1 xml).2.1⟩,
      (flowXmlPart term (flowNamePart term st flow).2.2 (flowNamePart term st flow).1
        (flowNamePart term st flow).2.1 xml).2.2)
  else (none,
    (flowXmlPart term (flowNamePart term st flow).2.2 (flowNamePart term st flow).1
      (flowNamePart term st flow).2.1 xml).2.2)

/-! ## Result Merger/Ranker (src/app/index.tsx lines 1334-1384) -/

/-- The string key used to deduplicate matches:
`` `${match.line}-${match.snippet}` ``. -/
def matchKey (m : SearchMatch) : String :=
  toString m.line ++ "-" ++ m.snippet

/-- The string key used to group results:
`` `${result.type}-${result.name}` ``. -/
def resultKey (r : CodeSearchResult) : String :=
  r.type ++ "-" ++ r.name

/-- The inner reduce of the merger (src/app/index.tsx lines 1347-1353):
keep the first match for each `(line, snippet)` key. -/
def dedupMatches (ms : List SearchMatch) : List SearchMatch :=
  ms.foldl
    (fun acc m => if acc.any (fun m2 => matchKey m2 == matchKey m) then acc
      else acc ++ [m]) []

/-- One step of the outer reduce (src/app/index.tsx lines 1335-1362):
a result with a fresh `type-name` key is pushed; a colliding one is
merged into the existing entry, whose match list becomes the
deduplicated concatenation and whose `totalMatches` is recomputed as
the deduplicated count. -/
def mergeInto (acc : List CodeSearchResult) (cur : CodeSearchResult) :
    List CodeSearchResult :=
  match acc.findIdx? (fun e => resultKey e == resultKey cur) with
  | none => acc ++ [cur]
  | some i =>
    let existing := acc.getD i cur
    let um := dedupMatches (existing.matches ++ cur.matches)
    acc.set i { existing with «matches» := um, totalMatches := um.length }

/-- The merger `uniqueResults` (src/app/index.tsx lines 1335-1362). -/
def uniqueResults (l : List CodeSearchResult) : List CodeSearchResult :=
  l.foldl mergeInto []

/-- Lexicographic code-point order on character lists; the model of
`localeCompare(a, b) ≤ 0`. -/
def charListLe : List Char → List Char → Bool
  | [], _ => true
  | _ :: _, [] => false
  | a :: as, b :: bs =>
    if a.toNat < b.toNat then true
    else if b.toNat < a.toNat then false
    else charListLe as bs

/-- Ascending name order, the model of the comparator's
`a.name.localeCompare(b.name)` tie-break. -/
def nameLe (a b : String) : Bool :=
  charListLe a.data b.data

/-- The sort comparator (src/app/index.tsx lines 1365-1372) read as a
"comes no later than" test: primary descending `totalMatches`,
secondary ascending name. -/
def resultLE (a b : CodeSearchResult) : Bool :=
  if b.totalMatches = a.totalMatches then nameLe a.name b.name
  else decide (b.totalMatches < a.totalMatches)

/-- Stable insertion of `x` after every already-placed element that
compares no later than it. -/
def insertSorted (x : CodeSearchResult) :
    List CodeSearchResult → List CodeSearchResult
  | [] => [x]
  | y :: ys => if resultLE y x then y :: insertSorted x ys else x :: y :: ys

/-- The stable sort by the comparator, the model of
`uniqueResults.sort(...)` (JavaScript's sort is stable). -/
def sortResults (l : List CodeSearchResult) : List CodeSearchResult :=
  l.foldl (fun acc x => insertSorted x acc) []

/-! ## Dispatcher (src/app/index.tsx lines 564-1390) -/

/-- The contents of the shared `results` array once every branch has
settled: the concatenation, in settle order, of what each fulfilled
branch pushed. -/
def collectResults (bs : List BranchOutcome) : List CodeSearchResult :=
  bs.flatMap fun b =>
    match b with
    | .ok rs => rs
    | .failed => []
    | .authFailed => []

/-- The rejection type of the search entry point. -/
inductive SearchError where
  | tokenExpired
deriving DecidableEq, Repr

/-- The body of the `try` block of `searchCodeContent`: input
validation returns `[]`; after `Promise.allSettled`, a branch rejected
with `TokenExpiredError` is re-thrown (modelled as `.error`); otherwise
the collected results are merged, ranked and truncated to 50. -/
def searchBody (instanceUrl accessToken searchTerm : String)
    (bs : List BranchOutcome) : Except SearchError (List CodeSearchResult) :=
  if instanceUrl = "" ∨ accessToken = "" ∨ searchTerm = "" ∨ searchTerm.length < 2
  then .ok []
  else if bs.any (fun b => b == .authFailed) then .error .tokenExpired
  else .ok ((sortResults (uniqueResults (collectResults bs))).take 50)

/-- The entry point `searchCodeContent` (src/app/index.tsx lines 564-1390): the whole
body runs inside one `try` whose `catch` logs the error and returns
`[]` — including when the error is the re-thrown `TokenExpiredError`. -/
def searchCodeContent (instanceUrl accessToken searchTerm : String)
    (bs : List BranchOutcome) : Except SearchError (List CodeSearchResult) :=
  match searchBody instanceUrl accessToken searchTerm bs with
  | .error _ => .ok []
  | .ok rs => .ok rs

/-! ## Helper lemmas: SOSL escaping -/

/-- A character other than backslash passes through `removeEscapes`. -/
theorem removeEscapes_cons_of_ne (c : Char) (hc : c ≠ '\\') (xs : List Char) :
    removeEscapes (c :: xs) = c :: removeEscapes xs := by
  cases xs <;> simp [removeEscapes, hc]

/-- Characterwise escaping round-trips on character lists. -/
theorem removeEscapes_flatMap (l : List Char) :
    removeEscapes (l.flatMap fun c =>
      if isSOSLReserved c then ['\\', c] else [c]) = l := by
  induction l with
  | nil => rfl
  | cons c rest ih =>
    by_cases hc : isSOSLReserved c
    · simp only [List.flatMap_cons, if_pos hc, List.cons_append, List.nil_append]
      simpa [removeEscapes, hc] using ih
    · have hcb : c ≠ '\\' := by
        intro h
        rw [h] at hc
        exact hc (by decide)
      simp only [List.flatMap_cons, if_neg hc, List.singleton_append]
      rw [removeEscapes_cons_of_ne c hcb]
      exact congrArg (c :: ·) ih

/-- The escaped form grows by one character per reserved character. -/
theorem length_flatMap_escape (l : List Char) :
    (l.flatMap fun c => if isSOSLReserved c then ['\\', c] else [c]).length
      = l.length + (l.filter isSOSLReserved).length := by
  induction l with
  | nil => rfl
  | cons c rest ih =>
    by_cases hc : isSOSLReserved c <;>
      simp [List.flatMap_cons, hc, ih] <;> omega

/-- A list without reserved characters is unchanged by escaping. -/
theorem flatMap_escape_of_no_reserved (l : List Char)
    (h : ∀ c ∈ l, isSOSLReserved c = false) :
    (l.flatMap fun c => if isSOSLReserved c then ['\\', c] else [c]) = l := by
  induction l with
  | nil => rfl
  | cons c rest ih =>
    have hc := h c (by simp)
    simp only [List.flatMap_cons, hc, Bool.false_eq_true, if_false,
      List.singleton_append]
    exact congrArg (c :: ·) (ih fun d hd => h d (by simp [hd]))

/-- C7.  `escapeSOSL` prefixes every occurrence of a SOSL-reserved
character with exactly one backslash and leaves every other character
unchanged, and removing the inserted backslashes recovers the original
string: `unescapeSOSL` inverts it, the escaped form is longer by
exactly the number of reserved occurrences, and a string without
reserved characters is untouched. -/
theorem c7_escape_roundtrip (s : String) :
    unescapeSOSL (escapeSOSL s) = s ∧
    (escapeSOSL s).length = s.length + (s.data.filter isSOSLReserved).length ∧
    ((∀ c ∈ s.data, isSOSLReserved c = false) → escapeSOSL s = s) := by
  refine ⟨?_, ?_, ?_⟩
  · show String.mk (removeEscapes (String.mk _).data) = s
    rw [show (String.mk (s.data.flatMap fun c =>
        if isSOSLReserved c then ['\\', c] else [c])).data
      = s.data.flatMap fun c => if isSOSLReserved c then ['\\', c] else [c] from rfl]
    rw [removeEscapes_flatMap]
  · show (String.mk _).length = _
    exact length_flatMap_escape s.data
  · intro h
    show String.mk _ = s
    rw [flatMap_escape_of_no_reserved s.data h]

/-- Witness for C7: the escaping round-trips on the string holding each
reserved character once, and leaves a reserved-free string unchanged. -/
theorem c7_escape_roundtrip_witness :
    unescapeSOSL (escapeSOSL (String.mk ['?', '&', '|', '!', '{', '}', '[', ']',
        '(', ')', '^', '~', '*', ':', '\\', '"', '\'', '+', '-']))
      = String.mk ['?', '&', '|', '!', '{', '}', '[', ']',
        '(', ')', '^', '~', '*', ':', '\\', '"', '\'', '+', '-'] ∧
    escapeSOSL "ab" = "ab" :=
  ⟨(c7_escape_roundtrip _).1, (c7_escape_roundtrip "ab").2.2 (by decide)⟩

/-! ## C6: terms shorter than two characters -/

/-- C6.  For every search term of length < 2, whatever the base URL,
the token and the transport, the search returns the empty list; the
result does not depend on the branch oracle at all, which is the
shallow-embedding reading of "no network call is issued" (the guard
returns before the branch promises are created). -/
theorem c6_short_term_empty (u t term : String) (bs bs' : List BranchOutcome)
    (h : term.length < 2) :
    searchCodeContent u t term bs = Except.ok [] ∧
    searchCodeContent u t term bs = searchCodeContent u t term bs' := by
  have hc : u = "" ∨ t = "" ∨ term = "" ∨ term.length < 2 := .inr (.inr (.inr h))
  constructor
  · simp [searchCodeContent, searchBody, if_pos hc]
  · simp [searchCodeContent, searchBody, if_pos hc]

/-- Witness for C6 at the one-character term "x". -/
theorem c6_short_term_empty_witness :
    ("x" : String).length < 2 ∧
    searchCodeContent "https://example.com" "tk" "x" [BranchOutcome.failed]
      = Except.ok [] :=
  ⟨by decide,
    (c6_short_term_empty "https://example.com" "tk" "x" [BranchOutcome.failed] []
      (by decide)).1⟩

/-! ## C1: the authentication-expired rejection is swallowed -/

/-- C1 (code evaluation).  A branch whose tooling query comes back as
HTTP 401 (equally, with an `INVALID_SESSION_ID` body) does reject with
`TokenExpiredError`, and `searchCodeContent` re-throws it after
`Promise.allSettled` — but the function's own outermost `catch` then
catches that very error and returns `[]`: the returned promise
resolves with the empty list instead of rejecting. -/
theorem c1_auth_error_swallowed :
    handleApiError 401 ErrorBody.notJson = ApiFailure.tokenExpired ∧
    handleApiError 401 (ErrorBody.jsonErr (some "INVALID_SESSION_ID") none)
      = ApiFailure.tokenExpired ∧
    apexClassBranch "Account" 0 (FetchOutcome.httpError 401 ErrorBody.notJson)
      = BranchOutcome.authFailed ∧
    searchBody "https://example.com" "tk" "Account"
        [apexClassBranch "Account" 0 (FetchOutcome.httpError 401 ErrorBody.notJson)]
      = Except.error SearchError.tokenExpired ∧
    searchCodeContent "https://example.com" "tk" "Account"
        [apexClassBranch "Account" 0 (FetchOutcome.httpError 401 ErrorBody.notJson)]
      = Except.ok [] :=
  ⟨rfl, rfl, rfl, rfl, rfl⟩

/-! ## C2: non-authentication branch failures are isolated -/

/-- Unfolding one branch of the collected results. -/
theorem collectResults_cons (b : BranchOutcome) (bs : List BranchOutcome) :
    collectResults (b :: bs)
      = (match b with
          | .ok rs => rs
          | .failed => []
          | .authFailed => []) ++ collectResults bs := rfl

/-- Replacing a settled-as-failed branch by a fulfilled empty branch
does not change the collected results. -/
theorem collectResults_set_ok_nil (bs : List BranchOutcome) (i : Nat)
    (h : bs[i]? = some BranchOutcome.failed) :
    collectResults (bs.set i (BranchOutcome.ok [])) = collectResults bs := by
  induction bs generalizing i with
  | nil => simp at h
  | cons b rest ih =>
    cases i with
    | zero =>
      simp only [List.getElem?_cons_zero, Option.some.injEq] at h
      subst h
      rfl
    | succ j =>
      simp only [List.getElem?_cons_succ] at h
      simp only [List.set_cons_succ, collectResults_cons]
      rw [ih j h]

/-- Replacing a settled-as-failed branch by a fulfilled empty branch
does not change whether some branch rejected with `TokenExpiredError`. -/
theorem anyAuth_set_ok_nil (bs : List BranchOutcome) (i : Nat)
    (h : bs[i]? = some BranchOutcome.failed) :
    (bs.set i (BranchOutcome.ok [])).any (fun b => b == BranchOutcome.authFailed)
      = bs.any (fun b => b == BranchOutcome.authFailed) := by
  induction bs generalizing i with
  | nil => simp at h
  | cons b rest ih =>
    cases i with
    | zero =>
      simp only [List.getElem?_cons_zero, Option.some.injEq] at h
      subst h
      rfl
    | succ j =>
      simp only [List.getElem?_cons_succ] at h
      simp only [List.set_cons_succ, List.any_cons]
      rw [ih j h]

/-- C2.  A dispatcher branch that timed out or failed with a
non-authentication error contributes an empty result set: the final
output equals the output computed with that branch replaced by a
fulfilled empty branch (so every other branch's results still appear),
the caller always receives a resolved list rather than an exception,
and a timed-out tooling query concretely settles the Apex branch as
fulfilled-empty. -/
theorem c2_failed_branch_isolated (u t term : String) (bs : List BranchOutcome)
    (i : Nat) (h : bs[i]? = some BranchOutcome.failed) :
    searchCodeContent u t term bs
      = searchCodeContent u t term (bs.set i (BranchOutcome.ok [])) ∧
    (∃ rs, searchCodeContent u t term bs = Except.ok rs) ∧
    (∀ st, apexClassBranch term st FetchOutcome.abortTimeout = BranchOutcome.ok []) := by
  refine ⟨?_, ?_, fun st => rfl⟩
  · unfold searchCodeContent searchBody
    rw [collectResults_set_ok_nil bs i h, anyAuth_set_ok_nil bs i h]
  · unfold searchCodeContent
    cases searchBody u t term bs with
    | error e => exact ⟨[], rfl⟩
    | ok rs => exact ⟨rs, rfl⟩

/-- Witness for C2: one failed branch next to one succeeding branch. -/
theorem c2_failed_branch_isolated_witness :
    ([BranchOutcome.failed,
      BranchOutcome.ok [⟨"a", "apex-class", "A", "A", "A.cls", [⟨1, "c", "s", "x"⟩], 1⟩]][0]?
        = some BranchOutcome.failed) ∧
    searchCodeContent "https://example.com" "tk" "Account"
        [BranchOutcome.failed,
         BranchOutcome.ok [⟨"a", "apex-class", "A", "A", "A.cls", [⟨1, "c", "s", "x"⟩], 1⟩]]
      = searchCodeContent "https://example.com" "tk" "Account"
        ([BranchOutcome.failed,
          BranchOutcome.ok [⟨"a", "apex-class", "A", "A", "A.cls", [⟨1, "c", "s", "x"⟩], 1⟩]].set 0
          (BranchOutcome.ok [])) :=
  ⟨rfl,
    (c2_failed_branch_isolated "https://example.com" "tk" "Account" _ 0 rfl).1⟩

/-! ## C5: the shared stateful regex skips matching lines -/

/-- C5 (code evaluation).  The body `"xxxab\nab"` holds the term
`"ab"` on both of its two lines, so the claimed match-record count is
`min 2 cap = 2` — but the scanner emits a single record (line 1 only):
the successful test on line 1 leaves the shared `g`-flag regex's
`lastIndex` at 5, so the test on the two-character line 2 starts past
the end of the line and misses. -/
theorem c5_scanner_misses_line :
    containsCI "ab" "xxxab" = true ∧
    containsCI "ab" "ab" = true ∧
    ((splitLines "xxxab\nab").filter (containsCI "ab")).length = 2 ∧
    ((searchInContent "ab" 0 "xxxab\nab" "A.cls" "apex-class" "A" "A"
        "apex-class-1").1.map
      (fun e => e.matches.map SearchMatch.line)) = some [1] := by
  refine ⟨rfl, rfl, rfl, ?_⟩
  rfl

/-! ## Helper lemmas: the search primitive -/

/-- A successful bounded search yields a real occurrence at or after
the start index. -/
theorem findFromGo_isSome_spec (hay need : List Char) (fuel k : Nat)
    (h : (findFromGo hay need fuel k).isSome) :
    ∃ j, k ≤ j ∧ j + need.length ≤ hay.length ∧
      need.isPrefixOf (hay.drop j) = true := by
  induction fuel generalizing k with
  | zero => simp [findFromGo] at h
  | succ fuel ih =>
    rw [findFromGo] at h
    by_cases h1 : k + need.length > hay.length
    · rw [if_pos h1] at h
      simp at h
    · rw [if_neg h1] at h
      by_cases h2 : need.isPrefixOf (hay.drop k) = true
      · exact ⟨k, le_refl k, by omega, h2⟩
      · rw [if_neg h2] at h
        obtain ⟨j, hj1, hj2, hj3⟩ := ih (k + 1) h
        exact ⟨j, by omega, hj2, hj3⟩

/-- With enough fuel, an occurrence at or after the start index is
found. -/
theorem findFromGo_isSome_of_spec (hay need : List Char) (fuel k j : Nat)
    (hfuel : hay.length + 1 ≤ fuel + k) (hkj : k ≤ j)
    (hj : j + need.length ≤ hay.length)
    (hpre : need.isPrefixOf (hay.drop j) = true) :
    (findFromGo hay need fuel k).isSome := by
  induction fuel generalizing k with
  | zero => omega
  | succ fuel ih =>
    rw [findFromGo]
    have h1 : ¬(k + need.length > hay.length) := by omega
    rw [if_neg h1]
    by_cases h2 : need.isPrefixOf (hay.drop k) = true
    · rw [if_pos h2]
      rfl
    · rw [if_neg h2]
      have hne : k ≠ j := fun he => h2 (he ▸ hpre)
      exact ih (k + 1) (by omega) (by omega)

/-- If the needle does not occur at all, no start index finds it. -/
theorem findFrom_eq_none_of_none (hay need : List Char)
    (h : findFrom hay need 0 = none) (k : Nat) :
    findFrom hay need k = none := by
  cases heq : findFrom hay need k with
  | none => rfl
  | some j =>
    exfalso
    have hs : (findFromGo hay need (hay.length + 1 - k) k).isSome := by
      rw [show findFromGo hay need (hay.length + 1 - k) k = findFrom hay need k from rfl,
        heq]
      rfl
    obtain ⟨j', hj1, hj2, hj3⟩ := findFromGo_isSome_spec hay need _ k hs
    have : (findFromGo hay need (hay.length + 1) 0).isSome :=
      findFromGo_isSome_of_spec hay need (hay.length + 1) 0 j' (by omega)
        (Nat.zero_le j') hj2 hj3
    have h2 : findFrom hay need 0 = findFromGo hay need (hay.length + 1) 0 := rfl
    rw [← h2, h] at this
    simp at this

/-- A term that occurs nowhere in a string fails the stateful regex
test from every cursor position, resetting the cursor. -/
theorem regexTestG_of_not_contains (term s : String)
    (h : containsCI term s = false) (st : Nat) :
    regexTestG term st s = (false, 0) := by
  rw [regexTestG]
  cases heq : findFrom (lowerChars s) (lowerChars term) st with
  | none => rfl
  | some k =>
    exfalso
    have h0 : findFrom (lowerChars s) (lowerChars term) 0 = none := by
      cases h0 : findFrom (lowerChars s) (lowerChars term) 0 with
      | none => rfl
      | some j =>
        rw [containsCI, h0] at h
        simp at h
    rw [findFrom_eq_none_of_none _ _ h0 st] at heq
    simp at heq

/-- The scanning loop collects nothing over lines none of which
contains the term. -/
theorem scanFromGo_no_match (term ty : String) (lines : List String)
    (h : ∀ l ∈ lines, containsCI term l = false) :
    ∀ fuel i st acc, (scanFromGo term ty lines fuel i st acc).1 = acc := by
  intro fuel
  induction fuel with
  | zero => intro i st acc; rfl
  | succ fuel ih =>
    intro i st acc
    rw [scanFromGo]
    by_cases hi : i < lines.length
    · rw [if_pos hi]
      by_cases hfull : acc.length ≥ 15
      · rw [if_pos hfull]
      · rw [if_neg hfull]
        have hline : containsCI term (lines.getD i "") = false := by
          rw [List.getD_eq_getElem lines "" hi]
          exact h _ (List.getElem_mem hi)
        rw [regexTestG_of_not_contains term _ hline st]
        exact ih (i + 1) 0 acc
    · rw [if_neg hi]

/-- C9 (amended).  The body-scanning path keeps the claimed invariant:
a result produced by `searchInContent` always carries at least one
match record, a body none of whose lines contains the term produces no
result at all (whatever the shared regex cursor), and the empty body
yields nothing without error.  (The field-searching branches violate
the original claim; see the counterexample.) -/
theorem c9_scanner_nonempty_amended :
    (∀ term st content f ty n lb id e st',
      searchInContent term st content f ty n lb id = (some e, st') →
      e.matches ≠ []) ∧
    (∀ term st content f ty n lb id,
      (∀ l ∈ splitLines content, containsCI term l = false) →
      (searchInContent term st content f ty n lb id).1 = none) ∧
    (∀ term st f ty n lb id,
      (searchInContent term st "" f ty n lb id).1 = none) := by
  refine ⟨?_, ?_, ?_⟩
  · intro term st content f ty n lb id e st' h
    rw [searchInContent] at h
    by_cases hc : content.length = 0
    · rw [if_pos hc] at h
      simp at h
    · rw [if_neg hc] at h
      rcases hscan : scanFromGo term ty (splitLines content)
        (splitLines content).length 0 st [] with ⟨ms, st2⟩
      rw [hscan] at h
      simp only at h
      by_cases hlen : ms.length > 0
      · rw [if_pos hlen] at h
        have he : e = ⟨id, ty, n, lb, f, ms, ms.length⟩ := by
          have := congrArg Prod.fst h
          simpa using this.symm
        rw [he]
        show ms ≠ []
        intro hnil
        rw [hnil] at hlen
        simp at hlen
      · rw [if_neg hlen] at h
        simp at h
  · intro term st content f ty n lb id h
    rw [searchInContent]
    by_cases hc : content.length = 0
    · rw [if_pos hc]
    · rw [if_neg hc]
      rcases hscan : scanFromGo term ty (splitLines content)
        (splitLines content).length 0 st [] with ⟨ms, st2⟩
      have hms : ms = [] := by
        have := scanFromGo_no_match term ty (splitLines content) h
          (splitLines content).length 0 st []
        rw [hscan] at this
        exact this
      rw [hms]
      simp
  · intro term st f ty n lb id
    rfl

/-- Witness for C9 (amended): a term absent from a two-line body and
from the empty body produces no result. -/
theorem c9_scanner_nonempty_amended_witness :
    (searchInContent "zz" 0 "a\nb" "f" "t" "n" "l" "i").1 = none ∧
    (searchInContent "zz" 7 "" "f" "t" "n" "l" "i").1 = none :=
  ⟨c9_scanner_nonempty_amended.2.1 "zz" 0 "a\nb" "f" "t" "n" "l" "i" (by decide),
    c9_scanner_nonempty_amended.2.2 "zz" 7 "f" "t" "n" "l" "i"⟩

/-- C9 (counterexample to the original claim).  With the term "b c"
and one LWC bundle whose DeveloperName is "b" and MasterLabel is "c",
the space-joined searchable content "b c" passes the combined regex
test, no individual field test records a match, and `searchCodeContent`
returns a SearchResult whose match list is empty — so not every
returned SearchResult contains a MatchRecord. -/
theorem c9_counterexample :
    searchCodeContent "https://example.com" "tk" "b c"
        [BranchOutcome.ok (lwcScan "b c" [⟨"1", "b", "c", ""⟩] 0).1]
      = Except.ok [⟨"lwc-bundle-1", "lwc-bundle", "b", "c", "b.js", [], 0⟩] ∧
    (⟨"lwc-bundle-1", "lwc-bundle", "b", "c", "b.js", [], 0⟩ :
      CodeSearchResult).matches = [] :=
  ⟨rfl, rfl⟩

/-! ## Helper lemmas: match deduplication -/

/-- One step of the match-deduplicating reduce. -/
def dedupStep (acc : List SearchMatch) (m : SearchMatch) : List SearchMatch :=
  if acc.any (fun m2 => matchKey m2 == matchKey m) then acc else acc ++ [m]

/-- Unfolding `dedupMatches` as the fold of `dedupStep`. -/
theorem dedupMatches_eq_foldl (ms : List SearchMatch) :
    dedupMatches ms = ms.foldl dedupStep [] := rfl

/-- Key membership after one dedup step. -/
theorem any_key_dedupStep (acc : List SearchMatch) (m' m : SearchMatch) :
    ((dedupStep acc m').any fun m2 => matchKey m2 == matchKey m)
      = ((acc.any fun m2 => matchKey m2 == matchKey m)
          || (matchKey m' == matchKey m)) := by
  rw [dedupStep]
  by_cases h : (acc.any fun m2 => matchKey m2 == matchKey m') = true
  · rw [if_pos h]
    by_cases hk : matchKey m' = matchKey m
    · have hmem : (acc.any fun m2 => matchKey m2 == matchKey m) = true := by
        obtain ⟨x, hx, hbx⟩ := List.any_eq_true.1 h
        rw [beq_iff_eq] at hbx
        exact List.any_eq_true.2 ⟨x, hx, by rw [beq_iff_eq, hbx, hk]⟩
      rw [hmem]
      simp
    · rw [beq_eq_false_iff_ne.2 hk]
      simp
  · rw [if_neg h, List.any_append]
    simp

/-- Key membership after folding the dedup step over a list. -/
theorem any_key_foldl_dedupStep (ms : List SearchMatch) :
    ∀ (acc : List SearchMatch) (m : SearchMatch),
    ((ms.foldl dedupStep acc).any fun m2 => matchKey m2 == matchKey m)
      = ((acc.any fun m2 => matchKey m2 == matchKey m)
          || (ms.any fun m2 => matchKey m2 == matchKey m)) := by
  induction ms with
  | nil => intro acc m; simp
  | cons m' rest ih =>
    intro acc m
    rw [List.foldl_cons, ih, any_key_dedupStep, List.any_cons]
    cases hx : (matchKey m' == matchKey m) <;>
      cases hy : (acc.any fun m2 => matchKey m2 == matchKey m) <;> simp [hx, hy]

/-- The folded dedup keeps keys pairwise distinct. -/
theorem pairwise_key_foldl_dedupStep (ms : List SearchMatch) :
    ∀ (acc : List SearchMatch),
    acc.Pairwise (fun a b => matchKey a ≠ matchKey b) →
    (ms.foldl dedupStep acc).Pairwise (fun a b => matchKey a ≠ matchKey b) := by
  induction ms with
  | nil => intro acc h; exact h
  | cons m rest ih =>
    intro acc h
    rw [List.foldl_cons]
    refine ih (dedupStep acc m) ?_
    rw [dedupStep]
    by_cases hm : (acc.any fun m2 => matchKey m2 == matchKey m) = true
    · rw [if_pos hm]; exact h
    · rw [if_neg hm, List.pairwise_append]
      refine ⟨h, List.pairwise_singleton _ _, fun a ha b hb => ?_⟩
      rw [List.mem_singleton] at hb
      subst hb
      intro hk
      exact hm (List.any_eq_true.2 ⟨a, ha, beq_iff_eq.2 hk⟩)

/-- Matches whose keys are pairwise distinct pass through the dedup
fold unchanged. -/
theorem foldl_dedupStep_of_pairwise (ms : List SearchMatch) :
    ∀ (acc : List SearchMatch),
    (acc ++ ms).Pairwise (fun a b => matchKey a ≠ matchKey b) →
    ms.foldl dedupStep acc = acc ++ ms := by
  induction ms with
  | nil => intro acc _; simp
  | cons m rest ih =>
    intro acc h
    have hnk : (acc.any fun m2 => matchKey m2 == matchKey m) = false := by
      rw [Bool.eq_false_iff]
      intro hc
      obtain ⟨x, hx, hbx⟩ := List.any_eq_true.1 hc
      rw [beq_iff_eq] at hbx
      exact (List.pairwise_append.1 h).2.2 x hx m (by simp) hbx
    rw [List.foldl_cons, dedupStep, hnk]
    simp only [Bool.false_eq_true, if_false]
    have hre : (acc ++ [m]) ++ rest = acc ++ m :: rest := by simp
    rw [ih (acc ++ [m]) (by rw [hre]; exact h), hre]

/-- Deduplicated matches have pairwise distinct `(line, snippet)` keys. -/
theorem dedupMatches_pairwise (ms : List SearchMatch) :
    (dedupMatches ms).Pairwise (fun a b => matchKey a ≠ matchKey b) :=
  pairwise_key_foldl_dedupStep ms [] (List.Pairwise.nil)

/-- Deduplication is the identity on key-distinct lists. -/
theorem dedupMatches_of_pairwise (ms : List SearchMatch)
    (h : ms.Pairwise fun a b => matchKey a ≠ matchKey b) :
    dedupMatches ms = ms := by
  rw [dedupMatches_eq_foldl]
  exact foldl_dedupStep_of_pairwise ms [] (by simpa using h)

/-- Deduplication is idempotent. -/
theorem dedupMatches_idem (ms : List SearchMatch) :
    dedupMatches (dedupMatches ms) = dedupMatches ms :=
  dedupMatches_of_pairwise _ (dedupMatches_pairwise ms)

/-- Deduplicating an already-deduplicated prefix is harmless: this is
why the source's incremental pairwise merging agrees with one global
concatenate-then-dedup. -/
theorem dedupMatches_append_dedup_left (a b : List SearchMatch) :
    dedupMatches (dedupMatches a ++ b) = dedupMatches (a ++ b) := by
  have h1 : dedupMatches (dedupMatches a ++ b)
      = b.foldl dedupStep (dedupMatches (dedupMatches a)) := by
    rw [dedupMatches_eq_foldl (dedupMatches a ++ b), List.foldl_append,
      ← dedupMatches_eq_foldl]
  have h2 : dedupMatches (a ++ b) = b.foldl dedupStep (dedupMatches a) := by
    rw [dedupMatches_eq_foldl (a ++ b), List.foldl_append, ← dedupMatches_eq_foldl]
  rw [h1, h2, dedupMatches_idem]

/-! ## Helper lemmas: the merger invariant -/

/-- The entries of `src` sharing the key `k`. -/
def keyGroup (src : List CodeSearchResult) (k : String) : List CodeSearchResult :=
  src.filter fun e => resultKey e == k

/-- What the merger guarantees for one output entry `r` relative to the
full input list `src`: either `r`'s identity occurred once and `r` is
that sole entry passed through unchanged, or it collided and `r`
carries the deduplicated concatenation of the group's match lists with
`totalMatches` recomputed as its length. -/
def mergedSpec (src : List CodeSearchResult) (r : CodeSearchResult) : Prop :=
  keyGroup src (resultKey r) = [r] ∨
  (2 ≤ (keyGroup src (resultKey r)).length ∧
    r.matches = dedupMatches ((keyGroup src (resultKey r)).flatMap fun e => e.matches) ∧
    r.totalMatches = r.matches.length)

/-- Setting an index to the element already there is the identity. -/
theorem list_set_getElem_self {α : Type} :
    ∀ (l : List α) (i : Nat) (h : i < l.length), l.set i l[i] = l := by
  intro l
  induction l with
  | nil => intro i h; simp at h
  | cons x xs ih =>
    intro i h
    cases i with
    | zero => rfl
    | succ j =>
      rw [List.set_cons_succ]
      exact congrArg (x :: ·) (ih j (by simpa using h))

/-- One step of the outer merging reduce preserves the merger
invariant, relative to the processed input extended by the current
entry: keys stay pairwise distinct, every processed input key is
represented, and every accumulator entry satisfies `mergedSpec`. -/
theorem mergeInto_inv (src acc : List CodeSearchResult) (cur : CodeSearchResult)
    (h1 : acc.Pairwise fun a b => resultKey a ≠ resultKey b)
    (h2 : ∀ e ∈ src, resultKey e ∈ acc.map resultKey)
    (h3 : ∀ r ∈ acc, mergedSpec src r) :
    (mergeInto acc cur).Pairwise (fun a b => resultKey a ≠ resultKey b) ∧
    (∀ e ∈ src ++ [cur], resultKey e ∈ (mergeInto acc cur).map resultKey) ∧
    (∀ r ∈ mergeInto acc cur, mergedSpec (src ++ [cur]) r) := by
  cases hfind : acc.findIdx? (fun e => resultKey e == resultKey cur) with
  | none =>
    have hmi : mergeInto acc cur = acc ++ [cur] := by
      rw [mergeInto, hfind]
    rw [hmi]
    have hnone : ∀ e ∈ acc, resultKey e ≠ resultKey cur := by
      intro e he
      have := List.findIdx?_eq_none_iff.1 hfind e he
      rwa [beq_eq_false_iff_ne] at this
    refine ⟨?_, ?_, ?_⟩
    · rw [List.pairwise_append]
      refine ⟨h1, List.pairwise_singleton _ _, fun a ha b hb => ?_⟩
      rw [List.mem_singleton] at hb
      subst hb
      exact hnone a ha
    · intro e he
      rw [List.mem_append, List.mem_singleton] at he
      rw [List.map_append]
      rcases he with he | he
      · exact List.mem_append_left _ (h2 e he)
      · subst he
        exact List.mem_append_right _ (by simp)
    · intro r hr
      rw [List.mem_append, List.mem_singleton] at hr
      rcases hr with hr | hr
      · have hg : keyGroup (src ++ [cur]) (resultKey r)
            = keyGroup src (resultKey r) := by
          rw [keyGroup, keyGroup, List.filter_append]
          have hc : (resultKey cur == resultKey r) = false :=
            beq_eq_false_iff_ne.2 (fun hh => hnone r hr hh.symm)
          simp [List.filter, hc]
        rcases h3 r hr with hL | hR
        · exact Or.inl (by rw [hg]; exact hL)
        · exact Or.inr (by rw [hg]; exact hR)
      · rw [hr]
        left
        have hempty : keyGroup src (resultKey cur) = [] := by
          rw [keyGroup, List.filter_eq_nil_iff]
          intro e he hbe
          rw [beq_iff_eq] at hbe
          obtain ⟨r', hr', hkr'⟩ := List.mem_map.1 (h2 e he)
          exact hnone r' hr' (by rw [hkr', hbe])
        show List.filter (fun e => resultKey e == resultKey cur) (src ++ [cur]) = [cur]
        rw [List.filter_append]
        rw [show List.filter (fun e => resultKey e == resultKey cur) src
          = keyGroup src (resultKey cur) from rfl, hempty]
        simp [List.filter]
  | some i =>
    obtain ⟨hi, hp, hleast⟩ := List.findIdx?_eq_some_iff_getElem.1 hfind
    rw [beq_iff_eq] at hp
    have hex : acc.getD i cur = acc[i] := List.getD_eq_getElem acc cur hi
    have hmi : mergeInto acc cur = acc.set i
        { acc.getD i cur with
          «matches» := dedupMatches ((acc.getD i cur).matches ++ cur.matches),
          totalMatches :=
            (dedupMatches ((acc.getD i cur).matches ++ cur.matches)).length } := by
      rw [mergeInto, hfind]
    rw [hmi, hex]
    set um := dedupMatches (acc[i].matches ++ cur.matches) with hum
    set em : CodeSearchResult :=
      { acc[i] with «matches» := um, totalMatches := um.length } with hem
    have hkeyem : resultKey em = resultKey cur := by
      rw [show resultKey em = resultKey acc[i] from rfl, hp]
    have hmap : (acc.set i em).map resultKey = acc.map resultKey := by
      rw [List.map_set]
      have hlen2 : i < (acc.map resultKey).length := by simpa using hi
      have h5 : resultKey em = (acc.map resultKey)[i] := by
        rw [List.getElem_map, hkeyem, hp]
      rw [h5]
      exact list_set_getElem_self _ i hlen2
    refine ⟨?_, ?_, ?_⟩
    · have h1m : (acc.map resultKey).Pairwise (· ≠ ·) := List.pairwise_map.mpr h1
      have hpm : ((acc.set i em).map resultKey).Pairwise (· ≠ ·) := by
        rw [hmap]
        exact h1m
      exact List.pairwise_map.mp hpm
    · intro e he
      rw [List.mem_append, List.mem_singleton] at he
      rw [hmap]
      rcases he with he | he
      · exact h2 e he
      · subst he
        exact List.mem_map.2 ⟨acc[i], List.getElem_mem hi, hp⟩
    · intro r hr
      obtain ⟨j, hj, hjr⟩ := List.mem_iff_getElem.1 hr
      have hjl : j < acc.length := by simpa using hj
      rw [List.getElem_set] at hjr
      by_cases hij : i = j
      · rw [if_pos hij] at hjr
        rw [← hjr]
        right
        have hgroup : keyGroup (src ++ [cur]) (resultKey em)
            = keyGroup src (resultKey cur) ++ [cur] := by
          rw [hkeyem, keyGroup, keyGroup, List.filter_append]
          simp [List.filter]
        rcases h3 acc[i] (List.getElem_mem hi) with hL | ⟨hlen, hm, ht⟩
        · rw [hp] at hL
          refine ⟨?_, ?_, rfl⟩
          · rw [hgroup, hL]
            simp
          · rw [hgroup, hL]
            show dedupMatches (acc[i].matches ++ cur.matches) = _
            simp
        · rw [hp] at hlen hm
          refine ⟨?_, ?_, rfl⟩
          · rw [hgroup]
            simp only [List.length_append, List.length_singleton]
            omega
          · rw [hgroup]
            show dedupMatches (acc[i].matches ++ cur.matches) = _
            rw [hm, dedupMatches_append_dedup_left]
            rw [List.flatMap_append]
            simp
      · rw [if_neg hij] at hjr
        rw [← hjr]
        have hrmem : acc[j] ∈ acc := List.getElem_mem hjl
        have hknej : resultKey acc[j] ≠ resultKey cur := by
          intro hh
          have hpij := List.pairwise_iff_getElem.1 h1
          rcases Nat.lt_or_ge i j with hlt | hge
          · exact hpij i j hi hjl hlt (by rw [hp, hh])
          · have hji : j < i := by omega
            exact hpij j i hjl hi hji (by rw [hp, hh])
        have hg : keyGroup (src ++ [cur]) (resultKey acc[j])
            = keyGroup src (resultKey acc[j]) := by
          rw [keyGroup, keyGroup, List.filter_append]
          have hc : (resultKey cur == resultKey acc[j]) = false :=
            beq_eq_false_iff_ne.2 (fun hh => hknej hh.symm)
          simp [List.filter, hc]
        rcases h3 acc[j] hrmem with hL | hR
        · exact Or.inl (by rw [hg]; exact hL)
        · exact Or.inr (by rw [hg]; exact hR)

/-- Folding the merge step over pending entries preserves the merger
invariant. -/
theorem mergeFold_inv (pending : List CodeSearchResult) :
    ∀ (src acc : List CodeSearchResult),
    acc.Pairwise (fun a b => resultKey a ≠ resultKey b) →
    (∀ e ∈ src, resultKey e ∈ acc.map resultKey) →
    (∀ r ∈ acc, mergedSpec src r) →
    (pending.foldl mergeInto acc).Pairwise (fun a b => resultKey a ≠ resultKey b) ∧
    (∀ e ∈ src ++ pending, resultKey e ∈ (pending.foldl mergeInto acc).map resultKey) ∧
    (∀ r ∈ pending.foldl mergeInto acc, mergedSpec (src ++ pending) r) := by
  induction pending with
  | nil =>
    intro src acc h1 h2 h3
    refine ⟨h1, ?_, ?_⟩
    · simpa using h2
    · simpa using h3
  | cons cur rest ih =>
    intro src acc h1 h2 h3
    obtain ⟨g1, g2, g3⟩ := mergeInto_inv src acc cur h1 h2 h3
    obtain ⟨k1, k2, k3⟩ := ih (src ++ [cur]) (mergeInto acc cur) g1 g2 g3
    rw [List.foldl_cons]
    refine ⟨k1, ?_, ?_⟩
    · intro e he
      refine k2 e ?_
      rw [List.append_assoc, List.singleton_append]
      exact he
    · intro r hr
      have := k3 r hr
      rwa [List.append_assoc, List.singleton_append] at this

/-- The three merger guarantees for `uniqueResults`. -/
theorem uniqueResults_spec (l : List CodeSearchResult) :
    (uniqueResults l).Pairwise (fun a b => resultKey a ≠ resultKey b) ∧
    (∀ e ∈ l, resultKey e ∈ (uniqueResults l).map resultKey) ∧
    (∀ r ∈ uniqueResults l, mergedSpec l r) := by
  have := mergeFold_inv l [] [] (List.Pairwise.nil) (by simp) (by simp)
  simpa [uniqueResults] using this

/-- Entries with pairwise distinct keys pass through the merging
reduce unchanged. -/
theorem foldl_mergeInto_of_pairwise (l : List CodeSearchResult) :
    ∀ (acc : List CodeSearchResult),
    (acc ++ l).Pairwise (fun a b => resultKey a ≠ resultKey b) →
    l.foldl mergeInto acc = acc ++ l := by
  induction l with
  | nil => intro acc _; simp
  | cons cur rest ih =>
    intro acc h
    have hfind : acc.findIdx? (fun e => resultKey e == resultKey cur) = none := by
      rw [List.findIdx?_eq_none_iff]
      intro e he
      rw [beq_eq_false_iff_ne]
      exact (List.pairwise_append.1 h).2.2 e he cur (by simp)
    have hmi : mergeInto acc cur = acc ++ [cur] := by
      rw [mergeInto, hfind]
    rw [List.foldl_cons, hmi]
    have hre : (acc ++ [cur]) ++ rest = acc ++ cur :: rest := by simp
    rw [ih (acc ++ [cur]) (by rw [hre]; exact h), hre]

/-- The merger is the identity on key-distinct inputs. -/
theorem uniqueResults_of_pairwise (l : List CodeSearchResult)
    (h : l.Pairwise fun a b => resultKey a ≠ resultKey b) :
    uniqueResults l = l := by
  rw [uniqueResults]
  exact foldl_mergeInto_of_pairwise l [] (by simpa using h)

/-! ## Helper lemmas: the ranking sort -/

/-- Totality of the lexicographic order. -/
theorem charListLe_total : ∀ (as bs : List Char),
    charListLe as bs = true ∨ charListLe bs as = true := by
  intro as
  induction as with
  | nil => intro bs; exact Or.inl rfl
  | cons a as ih =>
    intro bs
    cases bs with
    | nil => exact Or.inr rfl
    | cons b bs =>
      rw [charListLe, charListLe]
      by_cases h1 : a.toNat < b.toNat
      · exact Or.inl (by rw [if_pos h1])
      · by_cases h2 : b.toNat < a.toNat
        · exact Or.inr (by rw [if_pos h2])
        · rw [if_neg h1, if_neg h2, if_neg h2, if_neg h1]
          exact ih bs

/-- Transitivity of the lexicographic order. -/
theorem charListLe_trans : ∀ (as bs cs : List Char),
    charListLe as bs = true → charListLe bs cs = true →
    charListLe as cs = true := by
  intro as
  induction as with
  | nil => intro bs cs _ _; rfl
  | cons a as ih =>
    intro bs cs h1 h2
    cases bs with
    | nil => simp [charListLe] at h1
    | cons b bs =>
      cases cs with
      | nil => simp [charListLe] at h2
      | cons c cs =>
        rw [charListLe] at h1 h2 ⊢
        by_cases hab : a.toNat < b.toNat
        · by_cases hbc : b.toNat < c.toNat
          · rw [if_pos (show a.toNat < c.toNat by omega)]
          · by_cases hcb : c.toNat < b.toNat
            · rw [if_neg hbc, if_pos hcb] at h2
              exact absurd h2 (by simp)
            · rw [if_pos (show a.toNat < c.toNat by omega)]
        · by_cases hba : b.toNat < a.toNat
          · rw [if_neg hab, if_pos hba] at h1
            exact absurd h1 (by simp)
          · rw [if_neg hab, if_neg hba] at h1
            by_cases hbc : b.toNat < c.toNat
            · rw [if_pos (show a.toNat < c.toNat by omega)]
            · by_cases hcb : c.toNat < b.toNat
              · rw [if_neg hbc, if_pos hcb] at h2
                exact absurd h2 (by simp)
              · rw [if_neg hbc, if_neg hcb] at h2
                rw [if_neg (show ¬a.toNat < c.toNat by omega),
                  if_neg (show ¬c.toNat < a.toNat by omega)]
                exact ih bs cs h1 h2

/-- Antisymmetry of the lexicographic order. -/
theorem charListLe_antisymm : ∀ (as bs : List Char),
    charListLe as bs = true → charListLe bs as = true → as = bs := by
  intro as
  induction as with
  | nil =>
    intro bs h1 h2
    cases bs with
    | nil => rfl
    | cons b bs => simp [charListLe] at h2
  | cons a as ih =>
    intro bs h1 h2
    cases bs with
    | nil => simp [charListLe] at h1
    | cons b bs =>
      rw [charListLe] at h1 h2
      by_cases hab : a.toNat < b.toNat
      · rw [if_neg (show ¬b.toNat < a.toNat by omega), if_pos hab] at h2
        exact absurd h2 (by simp)
      · by_cases hba : b.toNat < a.toNat
        · rw [if_neg hab, if_pos hba] at h1
          exact absurd h1 (by simp)
        · rw [if_neg hab, if_neg hba] at h1
          rw [if_neg hba, if_neg hab] at h2
          have ha : a = b := by
            have hn : a.toNat = b.toNat := by omega
            exact Char.ext (UInt32.toNat.inj hn)
          rw [ha, ih bs h1 h2]

/-- Antisymmetry of the name order. -/
theorem nameLe_antisymm (a b : String) (h1 : nameLe a b = true)
    (h2 : nameLe b a = true) : a = b := by
  have h := charListLe_antisymm a.data b.data h1 h2
  cases a
  cases b
  exact congrArg String.mk h

/-- Totality of the comparator. -/
theorem resultLE_total (a b : CodeSearchResult) :
    resultLE a b = true ∨ resultLE b a = true := by
  rw [resultLE, resultLE]
  by_cases h : b.totalMatches = a.totalMatches
  · rw [if_pos h, if_pos h.symm]
    exact charListLe_total a.name.data b.name.data
  · rw [if_neg h, if_neg (fun hh => h hh.symm)]
    rcases Nat.lt_or_ge b.totalMatches a.totalMatches with hlt | hge
    · exact Or.inl (by simpa using hlt)
    · exact Or.inr (by simp; omega)

/-- Transitivity of the comparator. -/
theorem resultLE_trans (a b c : CodeSearchResult)
    (hab : resultLE a b = true) (hbc : resultLE b c = true) :
    resultLE a c = true := by
  rw [resultLE] at hab hbc ⊢
  by_cases h1 : b.totalMatches = a.totalMatches
  · rw [if_pos h1] at hab
    by_cases h2 : c.totalMatches = b.totalMatches
    · rw [if_pos h2] at hbc
      have h3 : c.totalMatches = a.totalMatches := by omega
      rw [if_pos h3]
      exact charListLe_trans _ _ _ hab hbc
    · rw [if_neg h2, decide_eq_true_eq] at hbc
      have h3 : ¬c.totalMatches = a.totalMatches := by omega
      rw [if_neg h3, decide_eq_true_eq]
      omega
  · rw [if_neg h1, decide_eq_true_eq] at hab
    by_cases h2 : c.totalMatches = b.totalMatches
    · rw [if_pos h2] at hbc
      have h3 : ¬c.totalMatches = a.totalMatches := by omega
      rw [if_neg h3, decide_eq_true_eq]
      omega
    · rw [if_neg h2, decide_eq_true_eq] at hbc
      have h3 : ¬c.totalMatches = a.totalMatches := by omega
      rw [if_neg h3, decide_eq_true_eq]
      omega

/-- Insertion keeps membership. -/
theorem insertSorted_perm (x : CodeSearchResult) (l : List CodeSearchResult) :
    (insertSorted x l).Perm (x :: l) := by
  induction l with
  | nil => exact List.Perm.refl _
  | cons y ys ih =>
    rw [insertSorted]
    by_cases h : resultLE y x = true
    · rw [if_pos h]
      exact (ih.cons y).trans (List.Perm.swap x y ys)
    · rw [if_neg h]

/-- Insertion preserves sortedness under the comparator. -/
theorem insertSorted_sorted (x : CodeSearchResult) (l : List CodeSearchResult)
    (h : l.Pairwise fun a b => resultLE a b = true) :
    (insertSorted x l).Pairwise fun a b => resultLE a b = true := by
  induction l with
  | nil => exact List.pairwise_singleton _ _
  | cons y ys ih =>
    rw [insertSorted]
    by_cases hle : resultLE y x = true
    · rw [if_pos hle]
      rw [List.pairwise_cons]
      refine ⟨?_, ih (List.Pairwise.of_cons h)⟩
      intro z hz
      have hz' : z = x ∨ z ∈ ys :=
        (List.mem_cons).1 ((insertSorted_perm x ys).mem_iff.1 hz)
      rcases hz' with hz' | hz'
      · rw [hz']
        exact hle
      · exact List.rel_of_pairwise_cons h hz'
    · rw [if_neg hle]
      rw [List.pairwise_cons]
      have hxy : resultLE x y = true := by
        rcases resultLE_total x y with hh | hh
        · exact hh
        · exact absurd hh hle
      refine ⟨?_, h⟩
      intro z hz
      rcases (List.mem_cons).1 hz with hz' | hz'
      · rw [hz']
        exact hxy
      · exact resultLE_trans x y z hxy (List.rel_of_pairwise_cons h hz')

/-- The insertion-sort fold is a permutation of the accumulator plus
the input. -/
theorem foldl_insertSorted_perm (l : List CodeSearchResult) :
    ∀ acc, (l.foldl (fun a x => insertSorted x a) acc).Perm (acc ++ l) := by
  induction l with
  | nil => intro acc; simp
  | cons x rest ih =>
    intro acc
    rw [List.foldl_cons]
    refine ((ih (insertSorted x acc)).trans ?_)
    refine (List.Perm.append_right rest (insertSorted_perm x acc)).trans ?_
    rw [show (x :: acc) ++ rest = x :: (acc ++ rest) from rfl]
    exact List.perm_middle.symm

/-- Sorting permutes the input. -/
theorem sortResults_perm (l : List CodeSearchResult) : (sortResults l).Perm l := by
  have := foldl_insertSorted_perm l []
  simpa [sortResults] using this

/-- Sorting produces a list sorted under the comparator. -/
theorem sortResults_sorted (l : List CodeSearchResult) :
    (sortResults l).Pairwise fun a b => resultLE a b = true := by
  rw [sortResults]
  have : ∀ acc, (acc.Pairwise fun a b => resultLE a b = true) →
      ((l.foldl (fun a x => insertSorted x a) acc).Pairwise
        fun a b => resultLE a b = true) := by
    induction l with
    | nil => intro acc h; exact h
    | cons x rest ih =>
      intro acc h
      rw [List.foldl_cons]
      exact ih (insertSorted x acc) (insertSorted_sorted x acc h)
  exact this [] List.Pairwise.nil

/-- Two sorted permutations of each other agree when the comparator is
antisymmetric on their elements. -/
theorem sorted_perm_eq (l1 : List CodeSearchResult) :
    ∀ (l2 : List CodeSearchResult), l1.Perm l2 →
    (l1.Pairwise fun a b => resultLE a b = true) →
    (l2.Pairwise fun a b => resultLE a b = true) →
    (∀ a ∈ l1, ∀ b ∈ l1, resultLE a b = true → resultLE b a = true → a = b) →
    l1 = l2 := by
  induction l1 with
  | nil =>
    intro l2 hp _ _ _
    exact (List.Perm.eq_nil hp.symm).symm
  | cons a t1 ih =>
    intro l2 hp hs1 hs2 hanti
    cases l2 with
    | nil => exact absurd (List.Perm.eq_nil hp) (by simp)
    | cons b t2 =>
      have hab : a = b := by
        by_cases hab : a = b
        · exact hab
        · exfalso
          have hbmem : b ∈ a :: t1 := hp.symm.subset (by simp)
          have hamem : a ∈ b :: t2 := hp.subset (by simp)
          have hb1 : b ∈ t1 := by
            rcases (List.mem_cons).1 hbmem with hh | hh
            · exact absurd hh.symm hab
            · exact hh
          have ha2 : a ∈ t2 := by
            rcases (List.mem_cons).1 hamem with hh | hh
            · exact absurd hh hab
            · exact hh
          have r1 : resultLE a b = true := List.rel_of_pairwise_cons hs1 hb1
          have r2 : resultLE b a = true := List.rel_of_pairwise_cons hs2 ha2
          exact hab (hanti a (by simp) b hbmem r1 r2)
      subst hab
      have hpt : t1.Perm t2 := hp.cons_inv
      have := ih t2 hpt (List.Pairwise.of_cons hs1) (List.Pairwise.of_cons hs2)
        (fun x hx y hy => hanti x (by simp [hx]) y (by simp [hy]))
      rw [this]

/-- A resolved search result list is either the early-return empty
list (invalid input or swallowed authentication failure) or the merged,
ranked, truncated pipeline output. -/
theorem searchCodeContent_cases (u t term : String) (bs : List BranchOutcome)
    (rs : List CodeSearchResult)
    (h : searchCodeContent u t term bs = Except.ok rs) :
    rs = [] ∨ rs = (sortResults (uniqueResults (collectResults bs))).take 50 := by
  rw [searchCodeContent, searchBody] at h
  by_cases hv : u = "" ∨ t = "" ∨ term = "" ∨ term.length < 2
  · rw [if_pos hv] at h
    left
    have : Except.ok (ε := SearchError) ([] : List CodeSearchResult)
        = Except.ok rs := h
    simpa using this.symm
  · rw [if_neg hv] at h
    by_cases ha : bs.any (fun b => b == BranchOutcome.authFailed) = true
    · rw [if_pos ha] at h
      left
      have : Except.ok (ε := SearchError) ([] : List CodeSearchResult)
          = Except.ok rs := h
      simpa using this.symm
    · rw [if_neg ha] at h
      right
      have : Except.ok (ε := SearchError)
          ((sortResults (uniqueResults (collectResults bs))).take 50)
          = Except.ok rs := h
      simpa using this.symm

/-- C3.  Identities are unique in every returned list: distinct entries
never share `(type, name)`; and every returned entry either is the sole
input entry of its identity passed through unchanged, or carries the
concatenation of its identity group's match lists deduplicated by
`(line, snippet)` with `totalMatches` recomputed as the deduplicated
count. -/
theorem c3_identity_merge (u t term : String) (bs : List BranchOutcome)
    (rs : List CodeSearchResult)
    (h : searchCodeContent u t term bs = Except.ok rs) :
    (rs.Pairwise fun a b => ¬(a.type = b.type ∧ a.name = b.name)) ∧
    (∀ r ∈ rs, mergedSpec (collectResults bs) r) := by
  rcases searchCodeContent_cases u t term bs rs h with hrs | hrs
  · subst hrs
    exact ⟨List.Pairwise.nil, by simp⟩
  · subst hrs
    obtain ⟨g1, g2, g3⟩ := uniqueResults_spec (collectResults bs)
    have hperm := sortResults_perm (uniqueResults (collectResults bs))
    constructor
    · have hpw : (sortResults (uniqueResults (collectResults bs))).Pairwise
          (fun a b => resultKey a ≠ resultKey b) :=
        (hperm.pairwise_iff fun h => h.symm).2 g1
      have hpt := List.Pairwise.sublist (List.take_sublist 50 _) hpw
      refine hpt.imp ?_
      intro a b hk ⟨hty, hnm⟩
      exact hk (by rw [resultKey, resultKey, hty, hnm])
    · intro r hr
      have hru : r ∈ uniqueResults (collectResults bs) :=
        hperm.mem_iff.1 (List.mem_of_mem_take hr)
      exact g3 r hru

/-- Witness for C3: two branches surface the same flow identity with
overlapping match lists; the output carries one entry per identity with
the deduplicated union. -/
theorem c3_identity_merge_witness :
    searchCodeContent "https://example.com" "tk" "Fl"
        [BranchOutcome.ok [⟨"ida", "flow", "F", "F", "F.flow", [⟨1, "c1", "s1", "x1"⟩], 1⟩],
         BranchOutcome.ok [⟨"idb", "flow", "F", "F", "F.flow",
            [⟨1, "c1", "s1", "x1"⟩, ⟨2, "c2", "s2", "x2"⟩], 2⟩]]
      = Except.ok [⟨"ida", "flow", "F", "F", "F.flow",
          [⟨1, "c1", "s1", "x1"⟩, ⟨2, "c2", "s2", "x2"⟩], 2⟩] ∧
    (∀ r ∈ [(⟨"ida", "flow", "F", "F", "F.flow",
          [⟨1, "c1", "s1", "x1"⟩, ⟨2, "c2", "s2", "x2"⟩], 2⟩ : CodeSearchResult)],
      mergedSpec (collectResults
        [BranchOutcome.ok [⟨"ida", "flow", "F", "F", "F.flow", [⟨1, "c1", "s1", "x1"⟩], 1⟩],
         BranchOutcome.ok [⟨"idb", "flow", "F", "F", "F.flow",
            [⟨1, "c1", "s1", "x1"⟩, ⟨2, "c2", "s2", "x2"⟩], 2⟩]]) r) :=
  ⟨rfl, (c3_identity_merge "https://example.com" "tk" "Fl"
      [BranchOutcome.ok [⟨"ida", "flow", "F", "F", "F.flow", [⟨1, "c1", "s1", "x1"⟩], 1⟩],
       BranchOutcome.ok [⟨"idb", "flow", "F", "F", "F.flow",
          [⟨1, "c1", "s1", "x1"⟩, ⟨2, "c2", "s2", "x2"⟩], 2⟩]]
      [⟨"ida", "flow", "F", "F", "F.flow",
          [⟨1, "c1", "s1", "x1"⟩, ⟨2, "c2", "s2", "x2"⟩], 2⟩] rfl).2⟩

/-- C4.  Every returned list is sorted by descending `totalMatches`
with ties broken by ascending name, and holds at most 50 entries. -/
theorem c4_sorted_truncated (u t term : String) (bs : List BranchOutcome)
    (rs : List CodeSearchResult)
    (h : searchCodeContent u t term bs = Except.ok rs) :
    (rs.Pairwise fun a b => b.totalMatches < a.totalMatches ∨
      (a.totalMatches = b.totalMatches ∧ nameLe a.name b.name = true)) ∧
    rs.length ≤ 50 := by
  have hbridge : ∀ a b : CodeSearchResult, resultLE a b = true →
      b.totalMatches < a.totalMatches ∨
        (a.totalMatches = b.totalMatches ∧ nameLe a.name b.name = true) := by
    intro a b hle
    rw [resultLE] at hle
    by_cases hq : b.totalMatches = a.totalMatches
    · rw [if_pos hq] at hle
      exact Or.inr ⟨hq.symm, hle⟩
    · rw [if_neg hq, decide_eq_true_eq] at hle
      exact Or.inl hle
  rcases searchCodeContent_cases u t term bs rs h with hrs | hrs
  · subst hrs
    exact ⟨List.Pairwise.nil, by simp⟩
  · subst hrs
    constructor
    · have hs := sortResults_sorted (uniqueResults (collectResults bs))
      have := List.Pairwise.sublist (List.take_sublist 50 _) hs
      exact this.imp (hbridge _ _)
    · rw [List.length_take]
      exact min_le_left _ _

/-- Witness for C4 at a two-branch input. -/
theorem c4_sorted_truncated_witness :
    (([(⟨"b", "apex-trigger", "B", "B", "B.trigger", [⟨1, "c", "s", "x"⟩, ⟨2, "c2", "s2", "x2"⟩], 2⟩ : CodeSearchResult),
       ⟨"a", "apex-class", "A", "A", "A.cls", [⟨1, "c", "s", "x"⟩], 1⟩]).Pairwise
      fun a b => b.totalMatches < a.totalMatches ∨
        (a.totalMatches = b.totalMatches ∧ nameLe a.name b.name = true)) ∧
    ([(⟨"b", "apex-trigger", "B", "B", "B.trigger", [⟨1, "c", "s", "x"⟩, ⟨2, "c2", "s2", "x2"⟩], 2⟩ : CodeSearchResult),
      ⟨"a", "apex-class", "A", "A", "A.cls", [⟨1, "c", "s", "x"⟩], 1⟩] :
      List CodeSearchResult).length ≤ 50 :=
  c4_sorted_truncated "https://example.com" "tk" "Acc"
    [BranchOutcome.ok [⟨"a", "apex-class", "A", "A", "A.cls", [⟨1, "c", "s", "x"⟩], 1⟩],
     BranchOutcome.ok [⟨"b", "apex-trigger", "B", "B", "B.trigger",
        [⟨1, "c", "s", "x"⟩, ⟨2, "c2", "s2", "x2"⟩], 2⟩]]
    [⟨"b", "apex-trigger", "B", "B", "B.trigger", [⟨1, "c", "s", "x"⟩, ⟨2, "c2", "s2", "x2"⟩], 2⟩,
     ⟨"a", "apex-class", "A", "A", "A.cls", [⟨1, "c", "s", "x"⟩], 1⟩] rfl

/-- The XML scanning loop keeps the separate `totalMatches` counter
equal to the length of the accumulated match list. -/
theorem flowXmlScanGo_counter (term : String) (xlines : List String) :
    ∀ fuel i st cnt acc total, total = acc.length →
    (flowXmlScanGo term xlines fuel i st cnt acc total).2.1
      = (flowXmlScanGo term xlines fuel i st cnt acc total).1.length := by
  intro fuel
  induction fuel with
  | zero => intro i st cnt acc total ht; simpa [flowXmlScanGo] using ht
  | succ fuel ih =>
    intro i st cnt acc total ht
    by_cases hi : i < xlines.length
    · by_cases hcnt : cnt ≥ 10
      · simp only [flowXmlScanGo, if_pos hi, if_pos hcnt]
        simpa using ht
      · rcases hr : regexTestG term st (xlines.getD i "") with ⟨hit, st'⟩
        simp only [flowXmlScanGo, if_pos hi, if_neg hcnt, hr]
        cases hit
        · exact ih (i + 1) st' cnt acc total ht
        · simpa using ih (i + 1) st' (cnt + 1)
            (acc ++ [mkFlowXmlMatch term xlines i]) (total + 1) (by simp [ht])
    · simp only [flowXmlScanGo, if_neg hi]
      simpa using ht

/-- The name part of the flow scan starts the counter at the length of
the name match list. -/
theorem flowNamePart_total (term : String) (st : Nat) (flow : FlowRec) :
    (flowNamePart term st flow).2.1 = (flowNamePart term st flow).1.length := by
  rw [flowNamePart]
  split_ifs <;> rfl

/-- The XML part of the flow scan preserves the counter invariant. -/
theorem flowXmlPart_total (term : String) (st1 : Nat) (nameMs : List SearchMatch)
    (total1 : Nat) (xml : XmlFetch) (h : total1 = nameMs.length) :
    (flowXmlPart term st1 nameMs total1 xml).2.1
      = (flowXmlPart term st1 nameMs total1 xml).1.length := by
  cases xml with
  | failed => simpa [flowXmlPart] using h
  | ok text =>
    rw [flowXmlPart]
    split_ifs with hg hh
    · exact flowXmlScanGo_counter term (splitLines text) (splitLines text).length 0
        (regexTestG term st1 text).2 0 nameMs total1 h
    · simpa using h
    · simpa using h

/-- C10.  `totalMatches` always equals the length of the match list:
in every returned list (given that each branch produced entries already
satisfying it — the following three conjuncts discharge that for the
scanner, the LWC field search, and the flow scan with its separately
maintained counter), including for entries produced by merging
duplicate identities. -/
theorem c10_total_eq_length (u t term : String) (bs : List BranchOutcome)
    (rs : List CodeSearchResult)
    (h : searchCodeContent u t term bs = Except.ok rs)
    (hin : ∀ e ∈ collectResults bs, e.totalMatches = e.matches.length) :
    (∀ r ∈ rs, r.totalMatches = r.matches.length) ∧
    (∀ term2 st content f ty n lb id e st2,
      searchInContent term2 st content f ty n lb id = (some e, st2) →
      e.totalMatches = e.matches.length) ∧
    (∀ term2 st lwc e st2, lwcScanOne term2 st lwc = (some e, st2) →
      e.totalMatches = e.matches.length) ∧
    (∀ term2 st flow xml e st2, flowScanOne term2 st flow xml = (some e, st2) →
      e.totalMatches = e.matches.length) := by
  refine ⟨?_, ?_, ?_, ?_⟩
  · intro r hr
    rcases searchCodeContent_cases u t term bs rs h with hrs | hrs
    · subst hrs
      simp at hr
    · subst hrs
      obtain ⟨g1, g2, g3⟩ := uniqueResults_spec (collectResults bs)
      have hperm := sortResults_perm (uniqueResults (collectResults bs))
      have hru : r ∈ uniqueResults (collectResults bs) :=
        hperm.mem_iff.1 (List.mem_of_mem_take hr)
      rcases g3 r hru with hL | ⟨_, _, ht⟩
      · have hmem : r ∈ keyGroup (collectResults bs) (resultKey r) := by
          rw [hL]
          simp
        exact hin r ((List.mem_filter.1 hmem).1)
      · exact ht
  · intro term2 st content f ty n lb id e st2 h2
    rw [searchInContent] at h2
    by_cases hc : content.length = 0
    · rw [if_pos hc] at h2
      simp at h2
    · rw [if_neg hc] at h2
      by_cases hlen : (scanFromGo term2 ty (splitLines content)
          (splitLines content).length 0 st []).1.length > 0
      · rw [if_pos hlen] at h2
        have he := congrArg Prod.fst h2
        simp only [Option.some.injEq] at he
        rw [← he]
      · rw [if_neg hlen] at h2
        simp at h2
  · intro term2 st lwc e st2 h2
    rw [lwcScanOne] at h2
    repeat split at h2
    all_goals
      first
      | (rw [Prod.mk.injEq, Option.some.injEq] at h2
         rw [← h2.1]
         try simp [List.length_append])
      | simp at h2
  · intro term2 st flow xml e st2 h2
    rw [flowScanOne] at h2
    by_cases hlen : (flowXmlPart term2 (flowNamePart term2 st flow).2.2
        (flowNamePart term2 st flow).1 (flowNamePart term2 st flow).2.1 xml).1.length > 0
    · rw [if_pos hlen] at h2
      have he := congrArg Prod.fst h2
      simp only [Option.some.injEq] at he
      rw [← he]
      exact flowXmlPart_total term2 (flowNamePart term2 st flow).2.2
        (flowNamePart term2 st flow).1 (flowNamePart term2 st flow).2.1 xml
        (flowNamePart_total term2 st flow)
    · rw [if_neg hlen] at h2
      simp at h2

/-- Witness for C10: the merged two-branch scenario, with the
input-side hypothesis checked concretely. -/
theorem c10_total_eq_length_witness :
    (⟨"ida", "flow", "F", "F", "F.flow",
        [⟨1, "c1", "s1", "x1"⟩, ⟨2, "c2", "s2", "x2"⟩], 2⟩ :
      CodeSearchResult).totalMatches
      = (⟨"ida", "flow", "F", "F", "F.flow",
          [⟨1, "c1", "s1", "x1"⟩, ⟨2, "c2", "s2", "x2"⟩], 2⟩ :
        CodeSearchResult).matches.length :=
  (c10_total_eq_length "https://example.com" "tk" "Fl"
    [BranchOutcome.ok [⟨"ida", "flow", "F", "F", "F.flow", [⟨1, "c1", "s1", "x1"⟩], 1⟩],
     BranchOutcome.ok [⟨"idb", "flow", "F", "F", "F.flow",
        [⟨1, "c1", "s1", "x1"⟩, ⟨2, "c2", "s2", "x2"⟩], 2⟩]]
    [⟨"ida", "flow", "F", "F", "F.flow",
        [⟨1, "c1", "s1", "x1"⟩, ⟨2, "c2", "s2", "x2"⟩], 2⟩]
    rfl (by decide)).1
    ⟨"ida", "flow", "F", "F", "F.flow",
        [⟨1, "c1", "s1", "x1"⟩, ⟨2, "c2", "s2", "x2"⟩], 2⟩
    (by simp)

/-- Permuting the branch settle order permutes the collected results. -/
theorem collectResults_perm (bs1 bs2 : List BranchOutcome) (h : bs1.Perm bs2) :
    (collectResults bs1).Perm (collectResults bs2) := by
  rw [collectResults, collectResults, List.flatMap_def, List.flatMap_def]
  exact (h.map _).flatten

/-- The function `List.any` is invariant under permutation. -/
theorem any_congr_perm (bs1 bs2 : List BranchOutcome) (h : bs1.Perm bs2)
    (p : BranchOutcome → Bool) : bs1.any p = bs2.any p := by
  cases hb : bs2.any p
  · rw [Bool.eq_false_iff]
    intro hc
    obtain ⟨x, hx, hpx⟩ := List.any_eq_true.1 hc
    have : bs2.any p = true := List.any_eq_true.2 ⟨x, h.mem_iff.1 hx, hpx⟩
    rw [hb] at this
    simp at this
  · obtain ⟨x, hx, hpx⟩ := List.any_eq_true.1 hb
    exact List.any_eq_true.2 ⟨x, h.mem_iff.2 hx, hpx⟩

/-- C8 (counterexample to the original claim).  Two branches produce
one entry each with equal `totalMatches` and equal names but different
identities; the comparator ties, the stable sort keeps arrival order,
and the two settle orders return different final lists. -/
theorem c8_counterexample :
    ([BranchOutcome.ok [⟨"a", "apex-class", "Foo", "Foo", "Foo.cls", [⟨1, "c", "s", "x"⟩], 1⟩],
      BranchOutcome.ok [⟨"b", "apex-trigger", "Foo", "Foo", "Foo.trigger", [⟨2, "c2", "s2", "x2"⟩], 1⟩]] :
      List BranchOutcome).Perm
      [BranchOutcome.ok [⟨"b", "apex-trigger", "Foo", "Foo", "Foo.trigger", [⟨2, "c2", "s2", "x2"⟩], 1⟩],
       BranchOutcome.ok [⟨"a", "apex-class", "Foo", "Foo", "Foo.cls", [⟨1, "c", "s", "x"⟩], 1⟩]] ∧
    searchCodeContent "https://example.com" "tk" "Foo"
        [BranchOutcome.ok [⟨"a", "apex-class", "Foo", "Foo", "Foo.cls", [⟨1, "c", "s", "x"⟩], 1⟩],
         BranchOutcome.ok [⟨"b", "apex-trigger", "Foo", "Foo", "Foo.trigger", [⟨2, "c2", "s2", "x2"⟩], 1⟩]]
      = Except.ok
        [⟨"a", "apex-class", "Foo", "Foo", "Foo.cls", [⟨1, "c", "s", "x"⟩], 1⟩,
         ⟨"b", "apex-trigger", "Foo", "Foo", "Foo.trigger", [⟨2, "c2", "s2", "x2"⟩], 1⟩] ∧
    searchCodeContent "https://example.com" "tk" "Foo"
        [BranchOutcome.ok [⟨"b", "apex-trigger", "Foo", "Foo", "Foo.trigger", [⟨2, "c2", "s2", "x2"⟩], 1⟩],
         BranchOutcome.ok [⟨"a", "apex-class", "Foo", "Foo", "Foo.cls", [⟨1, "c", "s", "x"⟩], 1⟩]]
      = Except.ok
        [⟨"b", "apex-trigger", "Foo", "Foo", "Foo.trigger", [⟨2, "c2", "s2", "x2"⟩], 1⟩,
         ⟨"a", "apex-class", "Foo", "Foo", "Foo.cls", [⟨1, "c", "s", "x"⟩], 1⟩] ∧
    ([⟨"a", "apex-class", "Foo", "Foo", "Foo.cls", [⟨1, "c", "s", "x"⟩], 1⟩,
      ⟨"b", "apex-trigger", "Foo", "Foo", "Foo.trigger", [⟨2, "c2", "s2", "x2"⟩], 1⟩] :
      List CodeSearchResult)
      ≠ [⟨"b", "apex-trigger", "Foo", "Foo", "Foo.trigger", [⟨2, "c2", "s2", "x2"⟩], 1⟩,
         ⟨"a", "apex-class", "Foo", "Foo", "Foo.cls", [⟨1, "c", "s", "x"⟩], 1⟩] :=
  ⟨List.Perm.swap _ _ _, by rfl, by rfl, by decide⟩

/-- C8 (amended).  Branch settle order cannot affect the final list
provided no two produced entries share an identity and no two distinct
produced entries tie on `(totalMatches, name)`: under those conditions
the merger is the identity and the comparator is antisymmetric on the
produced entries, so the sorted, truncated outputs coincide. -/
theorem c8_order_independent_amended (u t term : String)
    (bs1 bs2 : List BranchOutcome) (hperm : bs1.Perm bs2)
    (hkeys : (collectResults bs1).Pairwise fun a b => resultKey a ≠ resultKey b)
    (hties : ∀ a ∈ collectResults bs1, ∀ b ∈ collectResults bs1,
      a.totalMatches = b.totalMatches → a.name = b.name → a = b) :
    searchCodeContent u t term bs1 = searchCodeContent u t term bs2 := by
  have hc : (collectResults bs1).Perm (collectResults bs2) :=
    collectResults_perm _ _ hperm
  rw [searchCodeContent, searchCodeContent, searchBody, searchBody]
  by_cases hv : u = "" ∨ t = "" ∨ term = "" ∨ term.length < 2
  · rw [if_pos hv, if_pos hv]
  · rw [if_neg hv, if_neg hv,
      any_congr_perm bs1 bs2 hperm (fun b => b == BranchOutcome.authFailed)]
    by_cases ha : bs2.any (fun b => b == BranchOutcome.authFailed) = true
    · rw [if_pos ha, if_pos ha]
    · rw [if_neg ha, if_neg ha]
      have hkeys2 : (collectResults bs2).Pairwise
          (fun a b => resultKey a ≠ resultKey b) :=
        (hc.pairwise_iff fun hh => hh.symm).1 hkeys
      rw [uniqueResults_of_pairwise _ hkeys, uniqueResults_of_pairwise _ hkeys2]
      have hsorteq : sortResults (collectResults bs1)
          = sortResults (collectResults bs2) := by
        apply sorted_perm_eq
        · exact (sortResults_perm _).trans (hc.trans (sortResults_perm _).symm)
        · exact sortResults_sorted _
        · exact sortResults_sorted _
        · intro a ha' b hb' r1 r2
          have ha1 : a ∈ collectResults bs1 := (sortResults_perm _).mem_iff.1 ha'
          have hb1 : b ∈ collectResults bs1 := (sortResults_perm _).mem_iff.1 hb'
          rw [resultLE] at r1 r2
          by_cases hq : b.totalMatches = a.totalMatches
          · rw [if_pos hq] at r1
            rw [if_pos hq.symm] at r2
            exact hties a ha1 b hb1 hq.symm (nameLe_antisymm _ _ r1 r2)
          · rw [if_neg hq, decide_eq_true_eq] at r1
            rw [if_neg (fun hh => hq hh.symm), decide_eq_true_eq] at r2
            exact absurd (lt_trans r1 r2) (lt_irrefl _)
      rw [hsorteq]

/-- Witness for C8 (amended): two branches with distinct identities and
distinct totals settle in either order with the same final list. -/
theorem c8_order_independent_amended_witness :
    searchCodeContent "https://example.com" "tk" "Acc"
        [BranchOutcome.ok [⟨"a", "apex-class", "A", "A", "A.cls", [⟨1, "c", "s", "x"⟩], 1⟩],
         BranchOutcome.ok [⟨"b", "apex-trigger", "B", "B", "B.trigger",
            [⟨1, "c", "s", "x"⟩, ⟨2, "c2", "s2", "x2"⟩], 2⟩]]
      = searchCodeContent "https://example.com" "tk" "Acc"
        [BranchOutcome.ok [⟨"b", "apex-trigger", "B", "B", "B.trigger",
            [⟨1, "c", "s", "x"⟩, ⟨2, "c2", "s2", "x2"⟩], 2⟩],
         BranchOutcome.ok [⟨"a", "apex-class", "A", "A", "A.cls", [⟨1, "c", "s", "x"⟩], 1⟩]] :=
  c8_order_independent_amended "https://example.com" "tk" "Acc" _ _
    (List.Perm.swap _ _ _) (by decide) (by decide)
